import Mathlib

/-!
# Verification of the searchagent streaming formatter and its peripherals

This development embeds, as executable Lean definitions, the core components of
the `searchagent` repository:

* the tag-aware streaming formatter (`searchagent/ui/formatter.py`),
* the progress / ETA estimator (`searchagent/ui/progress.py`),
* the knowledge store (`searchagent/tools/knowledge.py`),
* the report writer (`searchagent/tools/reporting.py`),
* the crawler entry point (`searchagent/tools/crawler.py`),

and proves the design-document properties about them.  Python strings are
modelled as `List Char`, Python floats as `ℚ`, and the terminal side effects of
the formatter and progress bar as explicit event logs carried in the state.
-/

namespace SearchAgent

/-! ## Leftmost substring search

`findSub tag s` mirrors Python's `str.find`: `some i` is the index of the
leftmost occurrence of `tag` in `s`, `none` means no occurrence (Python's -1).
-/

def findSub (tag : List Char) : List Char → Option Nat
  | [] => if tag = [] then some 0 else none
  | c :: rest =>
    if tag.isPrefixOf (c :: rest) then some 0
    else (findSub tag rest).map (· + 1)

theorem isPrefixOf_eq_true_iff {l₁ l₂ : List Char} :
    l₁.isPrefixOf l₂ = true ↔ l₁ <+: l₂ :=
  List.isPrefixOf_iff_prefix

theorem findSub_eq_none_iff (tag s : List Char) :
    findSub tag s = none ↔ ∀ i, ¬ tag <+: s.drop i := by
  induction s with
  | nil =>
    simp only [findSub]
    by_cases htag : tag = []
    · subst htag
      simp only [if_pos rfl]
      constructor
      · intro h; exact absurd h (by simp)
      · intro h; exact absurd (h 0) (by simp)
    · simp only [if_neg htag]
      constructor
      · intro _ i hpre
        exact htag (List.prefix_nil.mp (by simpa using hpre))
      · intro _; trivial
  | cons c rest ih =>
    simp only [findSub]
    by_cases hp : tag.isPrefixOf (c :: rest)
    · simp only [if_pos hp]
      constructor
      · intro h; exact absurd h (by simp)
      · intro h
        have hp' : tag <+: c :: rest := isPrefixOf_eq_true_iff.mp hp
        exact absurd hp' (by simpa using h 0)
    · simp only [if_neg hp, Option.map_eq_none']
      rw [ih]
      constructor
      · intro h i
        cases i with
        | zero =>
          simp only [List.drop_zero]
          intro hpre
          exact hp (isPrefixOf_eq_true_iff.mpr hpre)
        | succ j =>
          simpa using h j
      · intro h i
        simpa using h (i + 1)

theorem findSub_eq_some_iff (tag s : List Char) (i : Nat) :
    findSub tag s = some i ↔
      (tag <+: s.drop i ∧ ∀ j, j < i → ¬ tag <+: s.drop j) := by
  induction s generalizing i with
  | nil =>
    simp only [findSub]
    by_cases htag : tag = []
    · subst htag
      simp only [if_pos rfl, List.drop_nil]
      constructor
      · rintro h
        have : i = 0 := by
          by_contra hne
          exact hne (by simpa using h.symm)
        subst this
        exact ⟨by simp, by omega⟩
      · rintro ⟨_, hmin⟩
        have : i = 0 := by
          by_contra hne
          exact hmin 0 (by omega) (by simp)
        subst this; rfl
    · simp only [if_neg htag, List.drop_nil]
      constructor
      · intro h; exact absurd h (by simp)
      · rintro ⟨hpre, _⟩
        exact absurd (List.prefix_nil.mp hpre) htag
  | cons c rest ih =>
    simp only [findSub]
    by_cases hp : tag.isPrefixOf (c :: rest)
    · simp only [if_pos hp]
      have hp' : tag <+: c :: rest := isPrefixOf_eq_true_iff.mp hp
      constructor
      · intro h
        have : i = 0 := by
          by_contra hne
          exact hne (by simpa using h.symm)
        subst this
        exact ⟨by simpa using hp', by omega⟩
      · rintro ⟨_, hmin⟩
        have : i = 0 := by
          by_contra hne
          exact hmin 0 (by omega) (by simpa using hp')
        subst this; rfl
    · simp only [if_neg hp, Option.map_eq_some']
      constructor
      · rintro ⟨a, ha, rfl⟩
        obtain ⟨h1, h2⟩ := (ih a).mp ha
        refine ⟨by simpa using h1, ?_⟩
        intro j hj
        cases j with
        | zero =>
          simp only [List.drop_zero]
          intro hpre
          exact hp (isPrefixOf_eq_true_iff.mpr hpre)
        | succ j' =>
          have : j' < a := by omega
          simpa using h2 j' this
      · rintro ⟨hpre, hmin⟩
        cases i with
        | zero =>
          exfalso
          exact hp (isPrefixOf_eq_true_iff.mpr (by simpa using hpre))
        | succ i' =>
          refine ⟨i', (ih i').mpr ⟨by simpa using hpre, ?_⟩, rfl⟩
          intro j hj hpre'
          exact hmin (j + 1) (by omega) (by simpa using hpre')

theorem findSub_of_prefix_at_zero {tag s : List Char} (htag : tag ≠ [])
    (h : tag <+: s) : findSub tag s = some 0 := by
  cases s with
  | nil => exact absurd (List.prefix_nil.mp h) htag
  | cons c rest =>
    simp only [findSub, if_pos (isPrefixOf_eq_true_iff.mpr h)]

/-! ## Border-freeness

A pattern is border free when no proper nonempty suffix of it equals the prefix
of the same length.  Border-free patterns cannot occur straddling the boundary
between a text and a copy of the pattern appended to it, which pins down the
leftmost occurrence in such concatenations.  All five formatter markers are
border free, checked by `decide`.
-/

def borderFree (tag : List Char) : Prop :=
  ∀ j, j < tag.length → 0 < j → tag.drop j ≠ tag.take (tag.length - j)

instance (tag : List Char) : Decidable (borderFree tag) := by
  unfold borderFree
  infer_instance

theorem take_pref (n : Nat) (l : List Char) : l.take n <+: l :=
  ⟨l.drop n, List.take_append_drop n l⟩

theorem not_occur_before_append {tag A : List Char} (w : List Char)
    (hbf : borderFree tag) (hA : findSub tag A = none)
    {p : Nat} (hp : p < A.length) : ¬ tag <+: (A ++ (tag ++ w)).drop p := by
  intro h
  have hdrop : (A ++ (tag ++ w)).drop p = A.drop p ++ (tag ++ w) := by
    rw [List.drop_append_eq_append_drop]
    have : p - A.length = 0 := by omega
    rw [this, List.drop_zero]
  rw [hdrop] at h
  have hAdrop_len : (A.drop p).length = A.length - p := List.length_drop p A
  set j : Nat := A.length - p with hj
  have hjpos : 0 < j := by omega
  by_cases hle : tag.length ≤ j
  · -- the occurrence would lie entirely inside `A`
    have htake : tag = (A.drop p ++ (tag ++ w)).take tag.length :=
      List.prefix_iff_eq_take.mp h
    rw [List.take_append_eq_append_take] at htake
    have h0 : tag.length - (A.drop p).length = 0 := by omega
    rw [h0, List.take_zero, List.append_nil] at htake
    have : tag <+: A.drop p := htake ▸ take_pref tag.length (A.drop p)
    have : tag <+: A.drop p := this
    exact (findSub_eq_none_iff tag A).mp hA p this
  · -- the occurrence would straddle into the appended pattern: a border
    push_neg at hle
    have htake : tag = (A.drop p ++ (tag ++ w)).take tag.length :=
      List.prefix_iff_eq_take.mp h
    rw [List.take_append_eq_append_take] at htake
    have hAp : (A.drop p).take tag.length = A.drop p :=
      List.take_of_length_le (by omega)
    rw [hAp] at htake
    -- split the equality at position `j`
    have hdrop_j : tag.drop j = (tag ++ w).take (tag.length - j) := by
      have hnil : List.drop j (List.drop p A) = [] :=
        List.drop_eq_nil_of_le (by omega)
      have := congrArg (List.drop j) htake
      rwa [List.drop_append_eq_append_drop, hAdrop_len, Nat.sub_self,
        List.drop_zero, hnil, List.nil_append] at this
    have htw : (tag ++ w).take (tag.length - j) = tag.take (tag.length - j) := by
      rw [List.take_append_eq_append_take]
      have : tag.length - j - tag.length = 0 := by omega
      rw [this, List.take_zero, List.append_nil]
    rw [htw] at hdrop_j
    exact hbf j (by omega) hjpos hdrop_j

theorem findSub_append_tag {tag A : List Char} (w : List Char)
    (hbf : borderFree tag) (_htag : tag ≠ [])
    (hA : findSub tag A = none) :
    findSub tag (A ++ (tag ++ w)) = some A.length := by
  rw [findSub_eq_some_iff]
  constructor
  · rw [List.drop_append_eq_append_drop, Nat.sub_self, List.drop_zero,
      List.drop_eq_nil_of_le (le_refl A.length), List.nil_append]
    exact List.prefix_append tag w
  · intro j hj
    exact not_occur_before_append w hbf hA hj

theorem occur_append_self_unique {tag A : List Char}
    (hbf : borderFree tag) (htag : tag ≠ [])
    (hA : findSub tag A = none) {p : Nat}
    (h : tag <+: (A ++ tag).drop p) : p = A.length := by
  have htag_len : 0 < tag.length := List.length_pos.mpr htag
  by_cases hlt : p < A.length
  · exfalso
    have h' : tag <+: (A ++ (tag ++ [])).drop p := by
      simpa using h
    exact not_occur_before_append [] hbf hA hlt h'
  · push_neg at hlt
    have hlen := h.length_le
    rw [List.length_drop, List.length_append] at hlen
    omega

/-! ## The tag-aware stream formatter

Embedding of `searchagent/ui/formatter.py`.  The tag constants come from
`searchagent/config/constants.py` (`class FormattingTags`).  Terminal printing
(`print(...)` calls and the final `console.print(Markdown(...))`) is modelled
by an event log `out`; the bytes the parser consumes as markers or discards as
channel names are logged in the ghost field `consumed` (pure accounting
instrumentation, it influences nothing else).
-/

def THINK_OPEN : List Char := "<think>".toList
def THINK_CLOSE : List Char := "</think>".toList
def CHANNEL_OPEN : List Char := "<|channel|>".toList
def MESSAGE_OPEN : List Char := "<|message|>".toList
def END_CLOSE : List Char := "<|end|>".toList

/-- One observable output action of the formatter: a plain `print` issued while
in think mode, a plain `print` issued while in analysis mode, the grey / reset
ANSI style codes, or the final markdown rendering of the accumulated answer. -/
inductive OutEvent where
  | thinkText (s : List Char)
  | analysisText (s : List Char)
  | grey
  | reset
  | markdown (s : List Char)
deriving DecidableEq, Repr

/-- State of `FormattedPrinter` (fields as in `__init__`), plus the `out` print
log and the `consumed` ghost accounting log. -/
structure FmtState where
  current_buffer : List Char
  bot_response_buffer : List Char
  in_think_content_mode : Bool
  in_analysis_mode : Bool
  out : List OutEvent
  consumed : List Char
deriving DecidableEq, Repr

/-- `FormattedPrinter.__init__`. -/
def FmtState.start : FmtState :=
  { current_buffer := [], bot_response_buffer := [],
    in_think_content_mode := false, in_analysis_mode := false,
    out := [], consumed := [] }

/-- `FormattedPrinter._process_think_mode`. -/
def process_think_mode (s : FmtState) : FmtState :=
  match findSub THINK_CLOSE s.current_buffer with
  | some i =>
      { s with
        out := s.out ++ [.thinkText (s.current_buffer.take i), .reset]
        consumed := s.consumed ++ (s.current_buffer.drop i).take THINK_CLOSE.length
        current_buffer := s.current_buffer.drop (i + THINK_CLOSE.length)
        in_think_content_mode := false }
  | none =>
      { s with
        out := s.out ++ [.thinkText s.current_buffer]
        current_buffer := [] }

/-- `FormattedPrinter._process_analysis_mode`. -/
def process_analysis_mode (s : FmtState) : FmtState :=
  match findSub END_CLOSE s.current_buffer with
  | some i =>
      { s with
        out := s.out ++ [.analysisText (s.current_buffer.take i), .reset]
        consumed := s.consumed ++ (s.current_buffer.drop i).take END_CLOSE.length
        current_buffer := s.current_buffer.drop (i + END_CLOSE.length)
        in_analysis_mode := false }
  | none =>
      { s with
        out := s.out ++ [.analysisText s.current_buffer]
        current_buffer := [] }

/-- `FormattedPrinter._handle_think_tag`. -/
def handle_think_tag (tag_index : Nat) (s : FmtState) : FmtState :=
  { s with
    bot_response_buffer := s.bot_response_buffer ++ s.current_buffer.take tag_index
    out := s.out ++ [.grey]
    consumed := s.consumed ++ (s.current_buffer.drop tag_index).take THINK_OPEN.length
    current_buffer := s.current_buffer.drop (tag_index + THINK_OPEN.length)
    in_think_content_mode := true }

/-- `FormattedPrinter._handle_channel_tag`. -/
def handle_channel_tag (tag_index : Nat) (s : FmtState) : FmtState :=
  match findSub MESSAGE_OPEN s.current_buffer with
  | some m =>
      if tag_index < m then
        { s with
          bot_response_buffer := s.bot_response_buffer ++ s.current_buffer.take tag_index
          out := s.out ++ [.grey]
          consumed := s.consumed ++
            (s.current_buffer.drop tag_index).take (m + MESSAGE_OPEN.length - tag_index)
          current_buffer := s.current_buffer.drop (m + MESSAGE_OPEN.length)
          in_analysis_mode := true }
      else
        { s with
          bot_response_buffer := s.bot_response_buffer ++ s.current_buffer
          current_buffer := [] }
  | none =>
      { s with
        bot_response_buffer := s.bot_response_buffer ++ s.current_buffer
        current_buffer := [] }

/-- `FormattedPrinter._process_normal_mode`.  The match mirrors the
`is_think_tag` / `is_channel_tag` selection: the think tag wins exactly when it
was found and either the channel tag was not found or it occurs later. -/
def process_normal_mode (s : FmtState) : FmtState :=
  match findSub THINK_OPEN s.current_buffer, findSub CHANNEL_OPEN s.current_buffer with
  | some t, none => handle_think_tag t s
  | some t, some c => if t < c then handle_think_tag t s else handle_channel_tag c s
  | none, some c => handle_channel_tag c s
  | none, none =>
      { s with
        bot_response_buffer := s.bot_response_buffer ++ s.current_buffer
        current_buffer := [] }

/-- One iteration of the `while self.current_buffer` dispatch loop in
`FormattedPrinter._process_buffer`. -/
def process_step (s : FmtState) : FmtState :=
  if s.in_think_content_mode then process_think_mode s
  else if s.in_analysis_mode then process_analysis_mode s
  else process_normal_mode s

/-- The `while` loop of `_process_buffer`, embedded with explicit fuel so that
it stays structurally recursive; `process_buffer` supplies fuel that is proved
sufficient below (`process_buffer_unfold`, `process_buffer_buffer_nil`). -/
def process_buffer_fuel : Nat → FmtState → FmtState
  | 0, s => s
  | fuel + 1, s =>
      if s.current_buffer = [] then s
      else process_buffer_fuel fuel (process_step s)

/-- `FormattedPrinter._process_buffer`. -/
def process_buffer (s : FmtState) : FmtState :=
  process_buffer_fuel (s.current_buffer.length + 1) s

/-- `FormattedPrinter.print_fragment` (the unused `round_index` parameter is
kept to mirror the source signature). -/
def print_fragment (fragment : List Char) (_round_index : Nat) (s : FmtState) : FmtState :=
  process_buffer { s with current_buffer := s.current_buffer ++ fragment }

/-- Python's whitespace set for `str.strip` (ASCII portion). -/
def pyIsSpace (c : Char) : Bool :=
  c == ' ' || c == '\t' || c == '\n' || c == '\r' || c == '\x0b' || c == '\x0c'

/-- Python's `str.strip()`. -/
def pystrip (l : List Char) : List Char :=
  ((l.dropWhile pyIsSpace).reverse.dropWhile pyIsSpace).reverse

/-- `FormattedPrinter.finalize`. -/
def finalize (s : FmtState) : FmtState :=
  let s1 := process_buffer s
  let s2 :=
    if s1.in_think_content_mode || s1.in_analysis_mode then
      { s1 with out := s1.out ++ [.reset],
                in_think_content_mode := false, in_analysis_mode := false }
    else s1
  let s3 :=
    if pystrip s2.bot_response_buffer ≠ [] then
      { s2 with out := s2.out ++ [.markdown s2.bot_response_buffer] }
    else s2
  { s3 with bot_response_buffer := [] }

/-- Feed a sequence of fragments through one printer instance. -/
def feedAll (frags : List (List Char)) (s : FmtState) : FmtState :=
  frags.foldl (fun t f => print_fragment f 0 t) s

/-- A whole response round: a fresh printer, all fragments, then `finalize`. -/
def runFormatter (frags : List (List Char)) : FmtState :=
  finalize (feedAll frags FmtState.start)

/-- Concatenation of all text printed while in think mode (the dim reasoning
channel). -/
def thinkOut : List OutEvent → List Char
  | [] => []
  | .thinkText s :: rest => s ++ thinkOut rest
  | _ :: rest => thinkOut rest

/-- Concatenation of all text printed while in analysis mode (the dim analysis
channel). -/
def analysisOut : List OutEvent → List Char
  | [] => []
  | .analysisText s :: rest => s ++ analysisOut rest
  | _ :: rest => analysisOut rest

/-- The payloads of the final markdown renderings. -/
def mdOut : List OutEvent → List (List Char)
  | [] => []
  | .markdown s :: rest => s :: mdOut rest
  | _ :: rest => mdOut rest

theorem thinkOut_append (a b : List OutEvent) :
    thinkOut (a ++ b) = thinkOut a ++ thinkOut b := by
  induction a with
  | nil => rfl
  | cons e rest ih => cases e <;> simp [thinkOut, ih]

theorem analysisOut_append (a b : List OutEvent) :
    analysisOut (a ++ b) = analysisOut a ++ analysisOut b := by
  induction a with
  | nil => rfl
  | cons e rest ih => cases e <;> simp [analysisOut, ih]

theorem mdOut_append (a b : List OutEvent) :
    mdOut (a ++ b) = mdOut a ++ mdOut b := by
  induction a with
  | nil => rfl
  | cons e rest ih => cases e <;> simp [mdOut, ih]

/-- Every iteration of the dispatch loop strictly shrinks the pending
buffer. -/
theorem process_step_decreases (s : FmtState) (h : s.current_buffer ≠ []) :
    (process_step s).current_buffer.length < s.current_buffer.length := by
  have hlen : 0 < s.current_buffer.length := List.length_pos.mpr h
  unfold process_step
  split
  · unfold process_think_mode
    cases hfs : findSub THINK_CLOSE s.current_buffer with
    | none => simpa using hlen
    | some i =>
      simp only [List.length_drop]
      have : 0 < i + THINK_CLOSE.length := by
        have : THINK_CLOSE.length = 8 := by decide
        omega
      exact Nat.sub_lt hlen this
  split
  · unfold process_analysis_mode
    cases hfs : findSub END_CLOSE s.current_buffer with
    | none => simpa using hlen
    | some i =>
      simp only [List.length_drop]
      have : 0 < i + END_CLOSE.length := by
        have : END_CLOSE.length = 7 := by decide
        omega
      exact Nat.sub_lt hlen this
  · unfold process_normal_mode
    have hthink : ∀ t, (handle_think_tag t s).current_buffer.length <
        s.current_buffer.length := by
      intro t
      unfold handle_think_tag
      simp only [List.length_drop]
      have : THINK_OPEN.length = 7 := by decide
      exact Nat.sub_lt hlen (by omega)
    have hchan : ∀ c, (handle_channel_tag c s).current_buffer.length <
        s.current_buffer.length := by
      intro c
      unfold handle_channel_tag
      cases hm : findSub MESSAGE_OPEN s.current_buffer with
      | none => simpa using hlen
      | some m =>
        by_cases hcm : c < m
        · simp only [if_pos hcm, List.length_drop]
          have : MESSAGE_OPEN.length = 11 := by decide
          exact Nat.sub_lt hlen (by omega)
        · simp only [if_neg hcm]
          simpa using hlen
    cases ht : findSub THINK_OPEN s.current_buffer with
    | none =>
      cases hc : findSub CHANNEL_OPEN s.current_buffer with
      | none => simpa using hlen
      | some c => exact hchan c
    | some t =>
      cases hc : findSub CHANNEL_OPEN s.current_buffer with
      | none => exact hthink t
      | some c =>
        by_cases htc : t < c
        · simpa [htc] using hthink t
        · simpa [htc] using hchan c

theorem process_buffer_fuel_irrel :
    ∀ f₁ f₂ (s : FmtState), s.current_buffer.length < f₁ →
      s.current_buffer.length < f₂ →
      process_buffer_fuel f₁ s = process_buffer_fuel f₂ s := by
  intro f₁
  induction f₁ with
  | zero => intro f₂ s h₁ _; omega
  | succ f ih =>
    intro f₂ s h₁ h₂
    cases f₂ with
    | zero => omega
    | succ g =>
      simp only [process_buffer_fuel]
      by_cases hb : s.current_buffer = []
      · simp [hb]
      · simp only [if_neg hb]
        have hdec := process_step_decreases s hb
        exact ih g (process_step s) (by omega) (by omega)

/-- The `while` loop equation for `process_buffer`. -/
theorem process_buffer_unfold (s : FmtState) :
    process_buffer s =
      if s.current_buffer = [] then s else process_buffer (process_step s) := by
  by_cases hb : s.current_buffer = []
  · simp [process_buffer, process_buffer_fuel, hb]
  · simp only [if_neg hb]
    unfold process_buffer
    rw [show process_buffer_fuel (s.current_buffer.length + 1) s =
        process_buffer_fuel s.current_buffer.length (process_step s) by
      simp [process_buffer_fuel, hb]]
    have hdec := process_step_decreases s hb
    exact process_buffer_fuel_irrel s.current_buffer.length
      ((process_step s).current_buffer.length + 1) (process_step s)
      (by omega) (by omega)

theorem process_buffer_of_nil {s : FmtState} (h : s.current_buffer = []) :
    process_buffer s = s := by
  rw [process_buffer_unfold, if_pos h]

/-- After `_process_buffer` returns, the pending buffer is always empty. -/
theorem process_buffer_buffer_nil (s : FmtState) :
    (process_buffer s).current_buffer = [] := by
  generalize hn : s.current_buffer.length = n
  induction n using Nat.strong_induction_on generalizing s with
  | _ n ih =>
    rw [process_buffer_unfold]
    by_cases hb : s.current_buffer = []
    · simp [hb]
    · simp only [if_neg hb]
      have hdec := process_step_decreases s hb
      exact ih (process_step s).current_buffer.length (by omega)
        (process_step s) rfl

/-! ## Occurrence analysis for buffer chunks

The main split theorems track chunks of the stream of the form
`((A ++ tag).drop a).take k`.  The lemmas below settle where the closing
pattern can be found in such chunks.
-/

theorem pref_of_chunk {tag S : List Char} {a k i : Nat}
    (h : tag <+: ((S.drop a).take k).drop i) : tag <+: S.drop (a + i) := by
  rw [List.drop_take, List.drop_drop] at h
  exact h.trans (take_pref _ _)

theorem findSub_drop_none {tag A : List Char} (hA : findSub tag A = none)
    (a : Nat) : findSub tag (A.drop a) = none := by
  rw [findSub_eq_none_iff]
  intro i h
  rw [List.drop_drop] at h
  exact (findSub_eq_none_iff tag A).mp hA (a + i) h

/-- No occurrence of the pattern inside a chunk of `A ++ tag` that either ends
before the end of the text or starts after the pattern's position. -/
theorem findSub_chunk_none {tag A : List Char} (hbf : borderFree tag)
    (htag : tag ≠ []) (hA : findSub tag A = none) (a k : Nat)
    (hcond : a + k < (A ++ tag).length ∨ A.length < a) :
    findSub tag (((A ++ tag).drop a).take k) = none := by
  rw [findSub_eq_none_iff]
  intro i h
  have hocc : tag <+: (A ++ tag).drop (a + i) := pref_of_chunk h
  have hpos : a + i = A.length := occur_append_self_unique hbf htag hA hocc
  rcases hcond with hend | hstart
  · have hlen := h.length_le
    rw [List.length_drop] at hlen
    have h2 : (((A ++ tag).drop a).take k).length ≤ k := List.length_take_le _ _
    have htl : 0 < tag.length := List.length_pos.mpr htag
    have h3 : (A ++ tag).length = A.length + tag.length := List.length_append _ _
    omega
  · omega

/-- The leftmost occurrence of the pattern in the whole tail `(A ++ tag).drop a`
(for `a` within the text) is exactly at the pattern's position. -/
theorem findSub_tail_some {tag A : List Char} (hbf : borderFree tag)
    (htag : tag ≠ []) (hA : findSub tag A = none) (a : Nat)
    (ha : a ≤ A.length) :
    findSub tag ((A ++ tag).drop a) = some (A.length - a) := by
  have hdrop : (A ++ tag).drop a = A.drop a ++ (tag ++ []) := by
    rw [List.drop_append_eq_append_drop]
    have : a - A.length = 0 := by omega
    rw [this, List.drop_zero, List.append_nil]
  rw [hdrop, findSub_append_tag [] hbf htag (findSub_drop_none hA a),
    List.length_drop]

/-! ## Branch equations for the dispatch functions -/

theorem process_think_mode_some {s : FmtState} {i : Nat}
    (hfs : findSub THINK_CLOSE s.current_buffer = some i) :
    process_think_mode s =
      { s with
        out := s.out ++ [.thinkText (s.current_buffer.take i), .reset],
        consumed := s.consumed ++ (s.current_buffer.drop i).take THINK_CLOSE.length,
        current_buffer := s.current_buffer.drop (i + THINK_CLOSE.length),
        in_think_content_mode := false } := by
  unfold process_think_mode
  rw [hfs]

theorem process_analysis_mode_some {s : FmtState} {i : Nat}
    (hfs : findSub END_CLOSE s.current_buffer = some i) :
    process_analysis_mode s =
      { s with
        out := s.out ++ [.analysisText (s.current_buffer.take i), .reset],
        consumed := s.consumed ++ (s.current_buffer.drop i).take END_CLOSE.length,
        current_buffer := s.current_buffer.drop (i + END_CLOSE.length),
        in_analysis_mode := false } := by
  unfold process_analysis_mode
  rw [hfs]

theorem handle_channel_tag_found {s : FmtState} {t m : Nat}
    (hm : findSub MESSAGE_OPEN s.current_buffer = some m) (htm : t < m) :
    handle_channel_tag t s =
      { s with
        bot_response_buffer := s.bot_response_buffer ++ s.current_buffer.take t,
        out := s.out ++ [.grey],
        consumed := s.consumed ++
          (s.current_buffer.drop t).take (m + MESSAGE_OPEN.length - t),
        current_buffer := s.current_buffer.drop (m + MESSAGE_OPEN.length),
        in_analysis_mode := true } := by
  unfold handle_channel_tag
  rw [hm]
  dsimp only
  rw [if_pos htm]

/-! ## Chunk-processing lemmas for the dim modes -/

theorem think_chunk_stay {s : FmtState} (ht : s.in_think_content_mode = true)
    (hfs : findSub THINK_CLOSE s.current_buffer = none) :
    (process_buffer s).current_buffer = [] ∧
    (process_buffer s).in_think_content_mode = true ∧
    (process_buffer s).in_analysis_mode = s.in_analysis_mode ∧
    (process_buffer s).bot_response_buffer = s.bot_response_buffer ∧
    thinkOut (process_buffer s).out = thinkOut s.out ++ s.current_buffer ∧
    analysisOut (process_buffer s).out = analysisOut s.out ∧
    mdOut (process_buffer s).out = mdOut s.out := by
  by_cases hb : s.current_buffer = []
  · rw [process_buffer_of_nil hb, hb]
    simp [ht]
  · rw [process_buffer_unfold, if_neg hb]
    have hstep : process_step s =
        { s with out := s.out ++ [.thinkText s.current_buffer],
                 current_buffer := [] } := by
      unfold process_step process_think_mode
      rw [if_pos ht, hfs]
    rw [hstep, process_buffer_of_nil (by simp)]
    simp [ht, thinkOut_append, analysisOut_append, mdOut_append,
      thinkOut, analysisOut, mdOut]

theorem think_chunk_fin {s : FmtState} {c₀ : List Char}
    (ht : s.in_think_content_mode = true)
    (hbuf : s.current_buffer = c₀ ++ THINK_CLOSE)
    (hc₀ : findSub THINK_CLOSE c₀ = none) :
    (process_buffer s).current_buffer = [] ∧
    (process_buffer s).in_think_content_mode = false ∧
    (process_buffer s).in_analysis_mode = s.in_analysis_mode ∧
    (process_buffer s).bot_response_buffer = s.bot_response_buffer ∧
    thinkOut (process_buffer s).out = thinkOut s.out ++ c₀ ∧
    analysisOut (process_buffer s).out = analysisOut s.out ∧
    mdOut (process_buffer s).out = mdOut s.out := by
  have hne : s.current_buffer ≠ [] := by
    rw [hbuf]
    intro hcontra
    have := congrArg List.length hcontra
    simp [THINK_CLOSE] at this
  have hfs : findSub THINK_CLOSE s.current_buffer = some c₀.length := by
    rw [hbuf]
    have := findSub_append_tag [] (show borderFree THINK_CLOSE by decide)
      (show THINK_CLOSE ≠ [] by decide) hc₀
    simpa using this
  have h1 : s.current_buffer.take c₀.length = c₀ := by
    rw [hbuf, List.take_left]
  have h2 : (s.current_buffer.drop c₀.length).take THINK_CLOSE.length =
      THINK_CLOSE := by
    rw [hbuf, List.drop_left, List.take_length]
  have h3 : s.current_buffer.drop (c₀.length + THINK_CLOSE.length) = [] := by
    rw [hbuf]
    apply List.drop_eq_nil_of_le
    simp
  rw [process_buffer_unfold, if_neg hne]
  have hstep : process_step s =
      { s with
        out := s.out ++ [.thinkText c₀, .reset],
        consumed := s.consumed ++ THINK_CLOSE,
        current_buffer := [],
        in_think_content_mode := false } := by
    unfold process_step
    rw [if_pos ht, process_think_mode_some hfs, h1, h2, h3]
  rw [hstep, process_buffer_of_nil (by simp)]
  simp [thinkOut_append, analysisOut_append, mdOut_append,
    thinkOut, analysisOut, mdOut]

theorem analysis_chunk_stay {s : FmtState}
    (hn : s.in_think_content_mode = false) (ha : s.in_analysis_mode = true)
    (hfs : findSub END_CLOSE s.current_buffer = none) :
    (process_buffer s).current_buffer = [] ∧
    (process_buffer s).in_think_content_mode = false ∧
    (process_buffer s).in_analysis_mode = true ∧
    (process_buffer s).bot_response_buffer = s.bot_response_buffer ∧
    thinkOut (process_buffer s).out = thinkOut s.out ∧
    analysisOut (process_buffer s).out = analysisOut s.out ++ s.current_buffer ∧
    mdOut (process_buffer s).out = mdOut s.out := by
  by_cases hb : s.current_buffer = []
  · rw [process_buffer_of_nil hb, hb]
    simp [hn, ha]
  · rw [process_buffer_unfold, if_neg hb]
    have hstep : process_step s =
        { s with out := s.out ++ [.analysisText s.current_buffer],
                 current_buffer := [] } := by
      unfold process_step process_analysis_mode
      rw [if_neg (by simp [hn]), if_pos ha, hfs]
    rw [hstep, process_buffer_of_nil (by simp)]
    simp [hn, ha, thinkOut_append, analysisOut_append, mdOut_append,
      thinkOut, analysisOut, mdOut]

theorem analysis_chunk_fin {s : FmtState} {c₀ : List Char}
    (hn : s.in_think_content_mode = false) (ha : s.in_analysis_mode = true)
    (hbuf : s.current_buffer = c₀ ++ END_CLOSE)
    (hc₀ : findSub END_CLOSE c₀ = none) :
    (process_buffer s).current_buffer = [] ∧
    (process_buffer s).in_think_content_mode = false ∧
    (process_buffer s).in_analysis_mode = false ∧
    (process_buffer s).bot_response_buffer = s.bot_response_buffer ∧
    thinkOut (process_buffer s).out = thinkOut s.out ∧
    analysisOut (process_buffer s).out = analysisOut s.out ++ c₀ ∧
    mdOut (process_buffer s).out = mdOut s.out := by
  have hne : s.current_buffer ≠ [] := by
    rw [hbuf]
    intro hcontra
    have := congrArg List.length hcontra
    simp [END_CLOSE] at this
  have hfs : findSub END_CLOSE s.current_buffer = some c₀.length := by
    rw [hbuf]
    have := findSub_append_tag [] (show borderFree END_CLOSE by decide)
      (show END_CLOSE ≠ [] by decide) hc₀
    simpa using this
  have h1 : s.current_buffer.take c₀.length = c₀ := by
    rw [hbuf, List.take_left]
  have h2 : (s.current_buffer.drop c₀.length).take END_CLOSE.length =
      END_CLOSE := by
    rw [hbuf, List.drop_left, List.take_length]
  have h3 : s.current_buffer.drop (c₀.length + END_CLOSE.length) = [] := by
    rw [hbuf]
    apply List.drop_eq_nil_of_le
    simp
  rw [process_buffer_unfold, if_neg hne]
  have hstep : process_step s =
      { s with
        out := s.out ++ [.analysisText c₀, .reset],
        consumed := s.consumed ++ END_CLOSE,
        current_buffer := [],
        in_analysis_mode := false } := by
    unfold process_step
    rw [if_neg (by simp [hn]), if_pos ha, process_analysis_mode_some hfs,
      h1, h2, h3]
  rw [hstep, process_buffer_of_nil (by simp)]
  simp [hn, thinkOut_append, analysisOut_append, mdOut_append,
    thinkOut, analysisOut, mdOut]

/-! ## Entering the dim modes from normal mode -/

theorem process_normal_mode_eq_think {s : FmtState}
    (h0 : findSub THINK_OPEN s.current_buffer = some 0)
    (hcne : findSub CHANNEL_OPEN s.current_buffer ≠ some 0) :
    process_normal_mode s = handle_think_tag 0 s := by
  unfold process_normal_mode
  rw [h0]
  cases hc : findSub CHANNEL_OPEN s.current_buffer with
  | none => rfl
  | some c =>
    have hcpos : 0 < c := by
      rcases Nat.eq_zero_or_pos c with rfl | h
      · exact absurd hc hcne
      · exact h
    simp [hcpos]

theorem process_normal_mode_eq_channel {s : FmtState}
    (hc0 : findSub CHANNEL_OPEN s.current_buffer = some 0) :
    process_normal_mode s = handle_channel_tag 0 s := by
  unfold process_normal_mode
  rw [hc0]
  cases ht : findSub THINK_OPEN s.current_buffer with
  | none => rfl
  | some t => simp

theorem channel_find_ne_zero_of_think {rest : List Char} :
    findSub CHANNEL_OPEN (THINK_OPEN ++ rest) ≠ some 0 := by
  intro hc
  have hpre : CHANNEL_OPEN <+: THINK_OPEN ++ rest := by
    have := (findSub_eq_some_iff CHANNEL_OPEN (THINK_OPEN ++ rest) 0).mp hc
    simpa using this.left
  have htake : CHANNEL_OPEN = (THINK_OPEN ++ rest).take CHANNEL_OPEN.length :=
    List.prefix_iff_eq_take.mp hpre
  have h7 := congrArg (List.take THINK_OPEN.length) htake
  rw [List.take_take] at h7
  rw [show THINK_OPEN.length ⊓ CHANNEL_OPEN.length = THINK_OPEN.length by decide]
    at h7
  rw [List.take_append_eq_append_take, List.take_length, Nat.sub_self,
    List.take_zero, List.append_nil] at h7
  exact absurd h7 (by decide)

theorem think_entry {s : FmtState} (hn : s.in_think_content_mode = false)
    (ha : s.in_analysis_mode = false) {rest : List Char}
    (hbuf : s.current_buffer = THINK_OPEN ++ rest) :
    process_buffer s = process_buffer
      { s with out := s.out ++ [.grey],
               consumed := s.consumed ++ THINK_OPEN,
               current_buffer := rest,
               in_think_content_mode := true } := by
  have hne : s.current_buffer ≠ [] := by
    rw [hbuf]
    intro hcontra
    have := congrArg List.length hcontra
    simp [THINK_OPEN] at this
  rw [process_buffer_unfold, if_neg hne]
  congr 1
  have hdispatch : process_step s = process_normal_mode s := by
    unfold process_step
    rw [if_neg (by simp [hn]), if_neg (by simp [ha])]
  rw [hdispatch]
  have h0 : findSub THINK_OPEN s.current_buffer = some 0 := by
    rw [hbuf]
    exact findSub_of_prefix_at_zero (by decide) (List.prefix_append _ _)
  have hcne : findSub CHANNEL_OPEN s.current_buffer ≠ some 0 := by
    rw [hbuf]; exact channel_find_ne_zero_of_think
  rw [process_normal_mode_eq_think h0 hcne]
  unfold handle_think_tag
  have h1 : s.current_buffer.take 0 = [] := List.take_zero _
  have h2 : (s.current_buffer.drop 0).take THINK_OPEN.length = THINK_OPEN := by
    rw [List.drop_zero, hbuf, List.take_left]
  have h3 : s.current_buffer.drop (0 + THINK_OPEN.length) = rest := by
    rw [Nat.zero_add, hbuf, List.drop_left]
  rw [h1, h2, h3, List.append_nil]

theorem channel_entry {s : FmtState} (hn : s.in_think_content_mode = false)
    (ha : s.in_analysis_mode = false) {X rest : List Char}
    (hbuf : s.current_buffer = CHANNEL_OPEN ++ X ++ MESSAGE_OPEN ++ rest)
    (hX : findSub MESSAGE_OPEN (CHANNEL_OPEN ++ X) = none) :
    process_buffer s = process_buffer
      { s with out := s.out ++ [.grey],
               consumed := s.consumed ++ (CHANNEL_OPEN ++ X ++ MESSAGE_OPEN),
               current_buffer := rest,
               in_analysis_mode := true } := by
  have hbuf' : s.current_buffer = (CHANNEL_OPEN ++ X) ++ (MESSAGE_OPEN ++ rest) := by
    rw [hbuf]; simp [List.append_assoc]
  have hne : s.current_buffer ≠ [] := by
    rw [hbuf']
    intro hcontra
    have := congrArg List.length hcontra
    simp [CHANNEL_OPEN] at this
  rw [process_buffer_unfold, if_neg hne]
  congr 1
  have hdispatch : process_step s = process_normal_mode s := by
    unfold process_step
    rw [if_neg (by simp [hn]), if_neg (by simp [ha])]
  rw [hdispatch]
  have hc0 : findSub CHANNEL_OPEN s.current_buffer = some 0 := by
    rw [hbuf']
    refine findSub_of_prefix_at_zero (by decide) ?_
    have h := List.prefix_append CHANNEL_OPEN (X ++ (MESSAGE_OPEN ++ rest))
    rwa [← List.append_assoc] at h
  rw [process_normal_mode_eq_channel hc0]
  have hm : findSub MESSAGE_OPEN s.current_buffer =
      some (CHANNEL_OPEN ++ X).length := by
    rw [hbuf']
    exact findSub_append_tag rest (show borderFree MESSAGE_OPEN by decide)
      (show MESSAGE_OPEN ≠ [] by decide) hX
  have hmpos : 0 < (CHANNEL_OPEN ++ X).length := by
    simp [CHANNEL_OPEN]
  rw [handle_channel_tag_found hm hmpos]
  have h1 : s.current_buffer.take 0 = [] := List.take_zero _
  have h2 : (s.current_buffer.drop 0).take
      ((CHANNEL_OPEN ++ X).length + MESSAGE_OPEN.length - 0) =
      CHANNEL_OPEN ++ X ++ MESSAGE_OPEN := by
    rw [List.drop_zero, Nat.sub_zero, hbuf']
    rw [show (CHANNEL_OPEN ++ X).length + MESSAGE_OPEN.length =
        ((CHANNEL_OPEN ++ X) ++ MESSAGE_OPEN).length from (List.length_append _ _).symm]
    rw [show (CHANNEL_OPEN ++ X) ++ (MESSAGE_OPEN ++ rest) =
        ((CHANNEL_OPEN ++ X) ++ MESSAGE_OPEN) ++ rest from by
      simp [List.append_assoc]]
    rw [List.take_left]
  have h3 : s.current_buffer.drop
      ((CHANNEL_OPEN ++ X).length + MESSAGE_OPEN.length) = rest := by
    rw [hbuf']
    rw [show (CHANNEL_OPEN ++ X).length + MESSAGE_OPEN.length =
        ((CHANNEL_OPEN ++ X) ++ MESSAGE_OPEN).length from (List.length_append _ _).symm]
    rw [show (CHANNEL_OPEN ++ X) ++ (MESSAGE_OPEN ++ rest) =
        ((CHANNEL_OPEN ++ X) ++ MESSAGE_OPEN) ++ rest from by
      simp [List.append_assoc]]
    rw [List.drop_left]
  rw [h1, h2, h3, List.append_nil]

/-! ## The think-block split theorem (claim C1)

Invariant for feeding a full `<think>…</think>` stream in fragments: `c` is
the number of stream characters consumed so far.  Until the first nonempty
fragment the state is pristine; once the opening marker has been consumed the
printer sits in think mode with an empty pending buffer, an empty visible
accumulator, and exactly the first `c - 7` characters of `R ++ </think>`
printed on the dim think channel; if some fragment contained the closing
marker in full, the printer has returned to normal mode having dim-printed
exactly `R`.
-/

def thinkInv (R : List Char) (c : Nat) (s : FmtState) : Prop :=
  s.in_think_content_mode = true ∧ s.in_analysis_mode = false ∧
  s.current_buffer = [] ∧ s.bot_response_buffer = [] ∧
  thinkOut s.out = (R ++ THINK_CLOSE).take (c - 7) ∧
  analysisOut s.out = [] ∧ mdOut s.out = []

def thinkDone (R : List Char) (s : FmtState) : Prop :=
  s.in_think_content_mode = false ∧ s.in_analysis_mode = false ∧
  s.current_buffer = [] ∧ s.bot_response_buffer = [] ∧
  thinkOut s.out = R ∧ analysisOut s.out = [] ∧ mdOut s.out = []

def c1Inv (R : List Char) (c : Nat) (s : FmtState) : Prop :=
  (c = 0 ∧ s = FmtState.start) ∨
  (7 ≤ c ∧ c ≤ 15 + R.length ∧ thinkInv R c s) ∨
  (c = 15 + R.length ∧ thinkDone R s)

theorem think_stream_length (R : List Char) :
    (THINK_OPEN ++ (R ++ THINK_CLOSE)).length = 15 + R.length := by
  rw [List.length_append, List.length_append,
    show THINK_OPEN.length = 7 from by decide,
    show THINK_CLOSE.length = 8 from by decide]
  omega

theorem close_len : THINK_CLOSE.length = 8 := by decide

theorem c1Inv_c_le {R : List Char} {c : Nat} {s : FmtState}
    (h : c1Inv R c s) : c ≤ 15 + R.length := by
  rcases h with ⟨rfl, _⟩ | ⟨_, h2, _⟩ | ⟨rfl, _⟩ <;> omega

theorem c1Inv_c_bound {R : List Char} {c : Nat} {s : FmtState}
    (h : c1Inv R c s) : c = 0 ∨ 7 ≤ c := by
  rcases h with ⟨rfl, _⟩ | ⟨h1, _⟩ | ⟨rfl, _⟩
  · exact Or.inl rfl
  · exact Or.inr h1
  · exact Or.inr (by omega)

theorem findSub_take_none {tag A : List Char} (hbf : borderFree tag)
    (htag : tag ≠ []) (hA : findSub tag A = none) (k : Nat)
    (hk : k < (A ++ tag).length) :
    findSub tag ((A ++ tag).take k) = none := by
  have := findSub_chunk_none hbf htag hA 0 k (Or.inl (by omega))
  simpa using this

theorem c1_step (R : List Char) (hR : findSub THINK_CLOSE R = none)
    (c : Nat) (s : FmtState) (f : List Char)
    (hf : f = ((THINK_OPEN ++ (R ++ THINK_CLOSE)).drop c).take f.length)
    (htot : c + f.length ≤ 15 + R.length)
    (hcb' : c + f.length = 0 ∨ 7 ≤ c + f.length)
    (hinv : c1Inv R c s) :
    c1Inv R (c + f.length) (print_fragment f 0 s) := by
  have hbfc : borderFree THINK_CLOSE := by decide
  have htagc : THINK_CLOSE ≠ [] := by decide
  have hSlen : (R ++ THINK_CLOSE).length = R.length + 8 := by
    rw [List.length_append, close_len]
  rcases hinv with ⟨hc0, hs⟩ | ⟨hc7, hcle, ht, ha, hbufnil, hbot, hto, hao, hmo⟩ |
    ⟨hctot, ht, ha, hbufnil, hbot, hto, hao, hmo⟩
  · -- pristine state, nothing consumed yet
    subst hs
    subst hc0
    by_cases hf0 : f.length = 0
    · have hfe : f = [] := List.eq_nil_of_length_eq_zero hf0
      subst hfe
      rw [show print_fragment [] 0 FmtState.start = FmtState.start from by
        unfold print_fragment
        rw [process_buffer_of_nil (by simp [FmtState.start])]
        simp [FmtState.start]]
      exact Or.inl ⟨by simp, rfl⟩
    · have h7f : 7 ≤ f.length := by
        rcases hcb' with h | h
        · omega
        · omega
      have hfshape : f = THINK_OPEN ++ (R ++ THINK_CLOSE).take (f.length - 7) := by
        conv_lhs => rw [hf]
        rw [List.drop_zero, List.take_append_eq_append_take,
          List.take_of_length_le (by rw [show THINK_OPEN.length = 7 from by decide]; omega),
          show THINK_OPEN.length = 7 from by decide]
      unfold print_fragment
      have hbufstart : ({ FmtState.start with
          current_buffer := FmtState.start.current_buffer ++ f }) =
          { FmtState.start with current_buffer := f } := by
        simp [FmtState.start]
      rw [hbufstart]
      rw [think_entry (by simp [FmtState.start]) (by simp [FmtState.start])
        (by simpa [FmtState.start] using hfshape)]
      set s₁ : FmtState := { FmtState.start with
          out := FmtState.start.out ++ [.grey],
          consumed := FmtState.start.consumed ++ THINK_OPEN,
          current_buffer := (R ++ THINK_CLOSE).take (f.length - 7),
          in_think_content_mode := true } with hs₁
      by_cases hcase : f.length < 15 + R.length
      · -- the closing marker has not fully arrived: stay in think mode
        have hnone : findSub THINK_CLOSE s₁.current_buffer = none := by
          rw [hs₁]
          exact findSub_take_none hbfc htagc hR (f.length - 7) (by omega)
        obtain ⟨hb', ht', ha', hbot', hto', hao', hmo'⟩ :=
          think_chunk_stay (by rw [hs₁]) hnone
        refine Or.inr (Or.inl ⟨by omega, by omega, ht', ?_, hb', ?_, ?_, ?_, ?_⟩)
        · rw [ha']; simp [hs₁, FmtState.start]
        · rw [hbot']; simp [hs₁, FmtState.start]
        · rw [hto']; rw [hs₁]
          simp [FmtState.start, thinkOut_append, thinkOut]
        · rw [hao']; rw [hs₁]
          simp [FmtState.start, analysisOut_append, analysisOut]
        · rw [hmo']; rw [hs₁]
          simp [FmtState.start, mdOut_append, mdOut]
      · -- the whole stream arrived in this one fragment
        have hflen : f.length = 15 + R.length := by omega
        have hbuf₁ : s₁.current_buffer = R ++ THINK_CLOSE := by
          rw [hs₁]
          show (R ++ THINK_CLOSE).take (f.length - 7) = R ++ THINK_CLOSE
          apply List.take_of_length_le
          omega
        obtain ⟨hb', ht', ha', hbot', hto', hao', hmo'⟩ :=
          think_chunk_fin (by rw [hs₁]) hbuf₁ hR
        refine Or.inr (Or.inr ⟨by omega, ht', ?_, hb', ?_, ?_, ?_, ?_⟩)
        · rw [ha']; simp [hs₁, FmtState.start]
        · rw [hbot']; simp [hs₁, FmtState.start]
        · rw [hto']; rw [hs₁]
          simp [FmtState.start, thinkOut_append, thinkOut]
        · rw [hao']; rw [hs₁]
          simp [FmtState.start, analysisOut_append, analysisOut]
        · rw [hmo']; rw [hs₁]
          simp [FmtState.start, mdOut_append, mdOut]
  · -- in think mode at position c
    have hfchunk : f = ((R ++ THINK_CLOSE).drop (c - 7)).take f.length := by
      conv_lhs => rw [hf]
      congr 1
      rw [List.drop_append_eq_append_drop,
        List.drop_eq_nil_of_le (by rw [show THINK_OPEN.length = 7 from by decide]; omega),
        List.nil_append, show THINK_OPEN.length = 7 from by decide]
    unfold print_fragment
    have hbufs : ({ s with current_buffer := s.current_buffer ++ f }) =
        { s with current_buffer := f } := by
      rw [hbufnil]; simp
    rw [hbufs]
    set s₀ : FmtState := { s with current_buffer := f } with hs₀
    have ht₀ : s₀.in_think_content_mode = true := by rw [hs₀]; exact ht
    by_cases hcase : c + f.length < 15 + R.length
    · -- still strictly inside the stream: remain in think mode
      have hnone : findSub THINK_CLOSE s₀.current_buffer = none := by
        show findSub THINK_CLOSE f = none
        rw [hfchunk]
        exact findSub_chunk_none hbfc htagc hR (c - 7) f.length
          (Or.inl (by omega))
      obtain ⟨hb', ht', ha', hbot', hto', hao', hmo'⟩ :=
        think_chunk_stay ht₀ hnone
      refine Or.inr (Or.inl ⟨by omega, by omega, ht', ?_, hb', ?_, ?_, ?_, ?_⟩)
      · rw [ha']; rw [hs₀]; exact ha
      · rw [hbot']; rw [hs₀]; exact hbot
      · rw [hto']
        rw [show s₀.out = s.out from by rw [hs₀], hto,
          show s₀.current_buffer = f from by rw [hs₀]]
        rw [show c + f.length - 7 = (c - 7) + f.length from by omega,
          List.take_add, ← hfchunk]
      · rw [hao']; rw [hs₀]; exact hao
      · rw [hmo']; rw [hs₀]; exact hmo
    · -- this fragment reaches the end of the stream
      have hctot' : c + f.length = 15 + R.length := by omega
      have hflen : f.length = (R ++ THINK_CLOSE).length - (c - 7) := by
        rw [hSlen]; omega
      have hfdrop : f = (R ++ THINK_CLOSE).drop (c - 7) := by
        rw [hfchunk]
        apply List.take_of_length_le
        rw [List.length_drop]
        omega
      by_cases hcR : c - 7 ≤ R.length
      · -- the closing marker arrives in one piece: exit think mode
        have hsplit : f = R.drop (c - 7) ++ THINK_CLOSE := by
          rw [hfdrop, List.drop_append_eq_append_drop,
            show c - 7 - R.length = 0 from by omega, List.drop_zero]
        have hnone' : findSub THINK_CLOSE (R.drop (c - 7)) = none :=
          findSub_drop_none hR (c - 7)
        obtain ⟨hb', ht', ha', hbot', hto', hao', hmo'⟩ :=
          think_chunk_fin ht₀ (show s₀.current_buffer = _ from hsplit) hnone'
        refine Or.inr (Or.inr ⟨by omega, ht', ?_, hb', ?_, ?_, ?_, ?_⟩)
        · rw [ha']; rw [hs₀]; exact ha
        · rw [hbot']; rw [hs₀]; exact hbot
        · rw [hto']
          rw [show s₀.out = s.out from by rw [hs₀], hto]
          rw [show (R ++ THINK_CLOSE).take (c - 7) = R.take (c - 7) from by
            rw [List.take_append_eq_append_take,
              show c - 7 - R.length = 0 from by omega, List.take_zero,
              List.append_nil]]
          exact List.take_append_drop _ R
        · rw [hao']; rw [hs₀]; exact hao
        · rw [hmo']; rw [hs₀]; exact hmo
      · -- a fragment boundary split the closing marker: it is never found
        have hnone : findSub THINK_CLOSE s₀.current_buffer = none := by
          show findSub THINK_CLOSE f = none
          rw [hfchunk]
          exact findSub_chunk_none hbfc htagc hR (c - 7) f.length
            (Or.inr (by omega))
        obtain ⟨hb', ht', ha', hbot', hto', hao', hmo'⟩ :=
          think_chunk_stay ht₀ hnone
        refine Or.inr (Or.inl ⟨by omega, by omega, ht', ?_, hb', ?_, ?_, ?_, ?_⟩)
        · rw [ha']; rw [hs₀]; exact ha
        · rw [hbot']; rw [hs₀]; exact hbot
        · rw [hto']
          rw [show s₀.out = s.out from by rw [hs₀], hto,
            show s₀.current_buffer = f from by rw [hs₀]]
          rw [show c + f.length - 7 = (c - 7) + f.length from by omega,
            List.take_add, ← hfchunk]
        · rw [hao']; rw [hs₀]; exact hao
        · rw [hmo']; rw [hs₀]; exact hmo
  · -- done: the whole stream was already consumed, only empty fragments left
    have hf0 : f.length = 0 := by omega
    have hfe : f = [] := List.eq_nil_of_length_eq_zero hf0
    subst hfe
    unfold print_fragment
    have hbufs : ({ s with current_buffer := s.current_buffer ++ [] }) =
        { s with current_buffer := ([] : List Char) } := by
      rw [hbufnil]; simp
    rw [hbufs, process_buffer_of_nil (by simp)]
    exact Or.inr (Or.inr ⟨by omega, ht, ha, by simp, hbot, hto, hao, hmo⟩)

theorem c1_run (R : List Char) (hR : findSub THINK_CLOSE R = none) :
    ∀ (frags : List (List Char)) (c : Nat) (s : FmtState),
      c1Inv R c s →
      (THINK_OPEN ++ (R ++ THINK_CLOSE)).drop c = frags.flatten →
      (∀ i, i < frags.length →
        c + ((frags.take i).flatten).length = 0 ∨
        7 ≤ c + ((frags.take i).flatten).length) →
      c1Inv R (15 + R.length) (feedAll frags s) := by
  intro frags
  induction frags with
  | nil =>
    intro c s hinv hrest _
    have hlen := congrArg List.length hrest
    rw [List.length_drop, think_stream_length] at hlen
    simp only [List.flatten_nil, List.length_nil] at hlen
    have hle := c1Inv_c_le hinv
    have hctot : c = 15 + R.length := by omega
    subst hctot
    exact hinv
  | cons f rest ih =>
    intro c s hinv hrest hbnd
    have hle := c1Inv_c_le hinv
    have hlen := congrArg List.length hrest
    rw [List.length_drop, think_stream_length] at hlen
    simp only [List.flatten_cons, List.length_append] at hlen
    have htot : c + f.length ≤ 15 + R.length := by omega
    have hf : f = ((THINK_OPEN ++ (R ++ THINK_CLOSE)).drop c).take f.length := by
      rw [hrest, List.flatten_cons, List.take_left]
    have hcb' : c + f.length = 0 ∨ 7 ≤ c + f.length := by
      cases rest with
      | nil =>
        right
        simp only [List.flatten_nil, List.length_nil] at hlen
        omega
      | cons g rest' =>
        have h := hbnd 1 (by simp only [List.length_cons]; omega)
        simp only [List.take_succ_cons, List.take_zero, List.flatten_cons,
          List.flatten_nil, List.append_nil, List.length_append] at h
        rcases h with h | h
        · left; omega
        · right; omega
    have hstep := c1_step R hR c s f hf htot hcb' hinv
    have hrest' : (THINK_OPEN ++ (R ++ THINK_CLOSE)).drop (c + f.length) =
        rest.flatten := by
      rw [← List.drop_drop, hrest, List.flatten_cons, List.drop_left]
    have hbnd' : ∀ i, i < rest.length →
        (c + f.length) + ((rest.take i).flatten).length = 0 ∨
        7 ≤ (c + f.length) + ((rest.take i).flatten).length := by
      intro i hi
      have h := hbnd (i + 1) (by simp only [List.length_cons]; omega)
      simp only [List.take_succ_cons, List.flatten_cons, List.length_append] at h
      rcases h with h | h
      · left; omega
      · right; omega
    have hfold : feedAll (f :: rest) s = feedAll rest (print_fragment f 0 s) := rfl
    rw [hfold]
    exact ih (c + f.length) (print_fragment f 0 s) hstep hrest' hbnd'

/-! ## Finalize on a clean state -/

theorem finalize_clean {s : FmtState} (hb : s.current_buffer = [])
    (hbot : s.bot_response_buffer = []) :
    (finalize s).bot_response_buffer = [] ∧
    thinkOut (finalize s).out = thinkOut s.out ∧
    analysisOut (finalize s).out = analysisOut s.out ∧
    mdOut (finalize s).out = mdOut s.out := by
  unfold finalize
  rw [process_buffer_of_nil hb]
  by_cases hm : (s.in_think_content_mode || s.in_analysis_mode) = true
  · simp [hm, hbot, pystrip, thinkOut_append, analysisOut_append, mdOut_append,
      thinkOut, analysisOut, mdOut]
  · simp [hm, hbot, pystrip, thinkOut_append, analysisOut_append, mdOut_append,
      thinkOut, analysisOut, mdOut]

/-- C1 (amended): for every split of a fully-formed `<think>R</think>` stream
into consecutive fragments in which no fragment boundary falls strictly inside
the opening `<think>` marker (and `R` itself contains no `</think>`), the
visible accumulator stays empty, everything printed lands on the dim think
channel (exactly `R`, possibly followed by pieces of the closing marker when a
boundary splits it), nothing is printed on the analysis channel, and the final
markdown rendering at `finalize` emits nothing. -/
theorem c1_think_split_amended (R : List Char) (frags : List (List Char))
    (hR : findSub THINK_CLOSE R = none)
    (hjoin : frags.flatten = THINK_OPEN ++ R ++ THINK_CLOSE)
    (hbnd : ∀ i, i < frags.length →
      ((frags.take i).flatten).length = 0 ∨ 7 ≤ ((frags.take i).flatten).length) :
    (feedAll frags FmtState.start).bot_response_buffer = [] ∧
    R <+: thinkOut (feedAll frags FmtState.start).out ∧
    thinkOut (feedAll frags FmtState.start).out <+: R ++ THINK_CLOSE ∧
    analysisOut (feedAll frags FmtState.start).out = [] ∧
    (runFormatter frags).bot_response_buffer = [] ∧
    mdOut (runFormatter frags).out = [] ∧
    thinkOut (runFormatter frags).out =
      thinkOut (feedAll frags FmtState.start).out := by
  unfold runFormatter
  have hinv0 : c1Inv R 0 FmtState.start := Or.inl ⟨rfl, rfl⟩
  have hrest : (THINK_OPEN ++ (R ++ THINK_CLOSE)).drop 0 = frags.flatten := by
    rw [List.drop_zero, hjoin, List.append_assoc]
  have hbnd0 : ∀ i, i < frags.length →
      0 + ((frags.take i).flatten).length = 0 ∨
      7 ≤ 0 + ((frags.take i).flatten).length := by
    intro i hi
    simpa using hbnd i hi
  have hfin := c1_run R hR frags 0 FmtState.start hinv0 hrest hbnd0
  have hSlen : (R ++ THINK_CLOSE).length = R.length + 8 := by
    rw [List.length_append, close_len]
  rcases hfin with ⟨h0, _⟩ | ⟨_, _, _, _, hb, hbot, hto, hao, hmo⟩ |
    ⟨_, _, _, hb, hbot, hto, hao, hmo⟩
  · omega
  · -- the closing marker was split: the printer is still in think mode
    have htoS : thinkOut (feedAll frags FmtState.start).out = R ++ THINK_CLOSE := by
      rw [hto]
      apply List.take_of_length_le
      rw [hSlen]
      omega
    obtain ⟨hf1, hf2, hf3, hf4⟩ := finalize_clean hb hbot
    refine ⟨hbot, ?_, ?_, hao, hf1, ?_, ?_⟩
    · rw [htoS]; exact List.prefix_append _ _
    · rw [htoS]
    · rw [hf4, hmo]
    · exact hf2
  · -- the closing marker arrived whole: clean exit
    obtain ⟨hf1, hf2, hf3, hf4⟩ := finalize_clean hb hbot
    refine ⟨hbot, ?_, ?_, hao, hf1, ?_, ?_⟩
    · rw [hto]
    · rw [hto]; exact List.prefix_append _ _
    · rw [hf4, hmo]
    · exact hf2

/-- C1 witness: the clean two-fragment split of `<think>hi</think>`. -/
theorem c1_think_split_amended_witness :
    (feedAll ["<think>hi".toList, "</think>".toList] FmtState.start).bot_response_buffer = [] ∧
    "hi".toList <+:
      thinkOut (feedAll ["<think>hi".toList, "</think>".toList] FmtState.start).out ∧
    thinkOut (feedAll ["<think>hi".toList, "</think>".toList] FmtState.start).out <+:
      "hi".toList ++ THINK_CLOSE ∧
    analysisOut (feedAll ["<think>hi".toList, "</think>".toList] FmtState.start).out = [] ∧
    (runFormatter ["<think>hi".toList, "</think>".toList]).bot_response_buffer = [] ∧
    mdOut (runFormatter ["<think>hi".toList, "</think>".toList]).out = [] ∧
    thinkOut (runFormatter ["<think>hi".toList, "</think>".toList]).out =
      thinkOut (feedAll ["<think>hi".toList, "</think>".toList] FmtState.start).out :=
  c1_think_split_amended "hi".toList ["<think>hi".toList, "</think>".toList]
    (by decide) (by decide) (by decide)

/-- C1 as literally stated is false: splitting the stream in the middle of the
opening `<think>` marker makes the whole reasoning block land in the visible
accumulator and in the final markdown render, and nothing reaches the dim
channel. -/
theorem c1_counterexample :
    (feedAll ["<th".toList, "ink>hi</think>".toList] FmtState.start).bot_response_buffer
      = "<think>hi</think>".toList ∧
    thinkOut (feedAll ["<th".toList, "ink>hi</think>".toList] FmtState.start).out = [] ∧
    mdOut (runFormatter ["<th".toList, "ink>hi</think>".toList]).out
      = ["<think>hi</think>".toList] := by
  decide

/-! ## Byte accounting (claim C3) -/

/-- Total number of content bytes accounted for by the five disjoint
destinations: printed-as-reasoning, printed-as-analysis, visible accumulator,
pending buffer, and consumed-as-marker / discarded-channel-name bytes. -/
def contentLen (s : FmtState) : Nat :=
  (thinkOut s.out).length + (analysisOut s.out).length +
  s.bot_response_buffer.length + s.current_buffer.length + s.consumed.length

theorem process_step_content (s : FmtState) :
    contentLen (process_step s) = contentLen s := by
  unfold process_step
  split
  · unfold process_think_mode
    cases hfs : findSub THINK_CLOSE s.current_buffer with
    | none =>
      simp only [contentLen, thinkOut_append, analysisOut_append,
        thinkOut, analysisOut, List.length_append, List.length_nil,
        List.append_nil]
      omega
    | some i =>
      have hocc := ((findSub_eq_some_iff _ _ _).mp hfs).1
      have hlen := hocc.length_le
      rw [List.length_drop, close_len] at hlen
      simp only [contentLen, thinkOut_append, analysisOut_append,
        thinkOut, analysisOut, List.length_append, List.length_nil,
        List.append_nil, List.length_take, List.length_drop, close_len]
      omega
  split
  · unfold process_analysis_mode
    cases hfs : findSub END_CLOSE s.current_buffer with
    | none =>
      simp only [contentLen, thinkOut_append, analysisOut_append,
        thinkOut, analysisOut, List.length_append, List.length_nil,
        List.append_nil]
      omega
    | some i =>
      have hocc := ((findSub_eq_some_iff _ _ _).mp hfs).1
      have hlen := hocc.length_le
      rw [List.length_drop, show END_CLOSE.length = 7 from by decide] at hlen
      simp only [contentLen, thinkOut_append, analysisOut_append,
        thinkOut, analysisOut, List.length_append, List.length_nil,
        List.append_nil, List.length_take, List.length_drop,
        show END_CLOSE.length = 7 from by decide]
      omega
  · unfold process_normal_mode
    have hthink : ∀ t, findSub THINK_OPEN s.current_buffer = some t →
        contentLen (handle_think_tag t s) = contentLen s := by
      intro t hft
      have hocc := ((findSub_eq_some_iff _ _ _).mp hft).1
      have hlen := hocc.length_le
      rw [List.length_drop, show THINK_OPEN.length = 7 from by decide] at hlen
      unfold handle_think_tag
      simp only [contentLen, thinkOut_append, analysisOut_append,
        thinkOut, analysisOut, List.length_append, List.length_nil,
        List.append_nil, List.length_take, List.length_drop,
        show THINK_OPEN.length = 7 from by decide]
      omega
    have hchan : ∀ c, contentLen (handle_channel_tag c s) = contentLen s := by
      intro c
      unfold handle_channel_tag
      cases hm : findSub MESSAGE_OPEN s.current_buffer with
      | none =>
        simp only [contentLen, List.length_append, List.length_nil]
        omega
      | some m =>
        by_cases hcm : c < m
        · have hocc := ((findSub_eq_some_iff _ _ _).mp hm).1
          have hlen := hocc.length_le
          rw [List.length_drop, show MESSAGE_OPEN.length = 11 from by decide] at hlen
          simp only [if_pos hcm, contentLen, thinkOut_append, analysisOut_append,
            thinkOut, analysisOut, List.length_append, List.length_nil,
            List.append_nil, List.length_take, List.length_drop,
            show MESSAGE_OPEN.length = 11 from by decide]
          omega
        · simp only [if_neg hcm, contentLen, List.length_append, List.length_nil]
          omega
    cases hft : findSub THINK_OPEN s.current_buffer with
    | none =>
      cases hfc : findSub CHANNEL_OPEN s.current_buffer with
      | none =>
        simp only [contentLen, List.length_append, List.length_nil]
        omega
      | some c => exact hchan c
    | some t =>
      cases hfc : findSub CHANNEL_OPEN s.current_buffer with
      | none => exact hthink t hft
      | some c =>
        by_cases htc : t < c
        · simpa [htc] using hthink t hft
        · simpa [htc] using hchan c

theorem process_buffer_content (s : FmtState) :
    contentLen (process_buffer s) = contentLen s := by
  generalize hn : s.current_buffer.length = n
  induction n using Nat.strong_induction_on generalizing s with
  | _ n ih =>
    rw [process_buffer_unfold]
    by_cases hb : s.current_buffer = []
    · rw [if_pos hb]
    · rw [if_neg hb]
      have hdec := process_step_decreases s hb
      rw [ih (process_step s).current_buffer.length (by omega)
        (process_step s) rfl, process_step_content]

theorem print_fragment_content (f : List Char) (r : Nat) (s : FmtState) :
    contentLen (print_fragment f r s) = contentLen s + f.length := by
  unfold print_fragment
  rw [process_buffer_content]
  simp only [contentLen, List.length_append]
  omega

theorem feedAll_content (frags : List (List Char)) :
    ∀ s : FmtState, contentLen (feedAll frags s) =
      contentLen s + frags.flatten.length := by
  induction frags with
  | nil => intro s; simp [feedAll]
  | cons f rest ih =>
    intro s
    have hfold : feedAll (f :: rest) s = feedAll rest (print_fragment f 0 s) := rfl
    rw [hfold, ih, print_fragment_content]
    simp only [List.flatten_cons, List.length_append]
    omega

/-- C3 (amended): after every `print_fragment` call the bytes of all fragments
appended so far are accounted for exactly once across the five destinations
printed-as-reasoning, printed-as-analysis, visible accumulator, pending
buffer, and bytes consumed as recognised markers or discarded channel-name
segments: the lengths balance exactly, so no content byte is duplicated and
none is silently lost. -/
theorem c3_byte_conservation :
    (∀ (f : List Char) (r : Nat) (s : FmtState),
      contentLen (print_fragment f r s) = contentLen s + f.length) ∧
    (∀ frags : List (List Char),
      contentLen (feedAll frags FmtState.start) = frags.flatten.length) := by
  refine ⟨print_fragment_content, fun frags => ?_⟩
  rw [feedAll_content, show contentLen FmtState.start = 0 from by decide,
    Nat.zero_add]

/-- C3 as literally stated (every byte ends up in one of the four places
printed-as-reasoning / printed-as-analysis / visible accumulator / pending
buffer) is false: of the 34 bytes of `<|channel|>abc<|message|>ok<|end|>` only
the 2 bytes of `ok` remain in those four places; the markers and the channel
name are consumed. -/
theorem c3_counterexample :
    (let s := feedAll ["<|channel|>abc<|message|>ok<|end|>".toList] FmtState.start
     (thinkOut s.out).length + (analysisOut s.out).length +
       s.bot_response_buffer.length + s.current_buffer.length) = 2 ∧
    (["<|channel|>abc<|message|>ok<|end|>".toList] : List (List Char)).flatten.length
      = 34 := by
  decide

/-! ## Determinism (claim C4) -/

/-- C4: the formatter is a pure function of its fragment sequence: the unused
`round_index` argument never affects the result, and two separately
constructed printer instances fed the same fragments agree on the visible
accumulator and on the whole printed-output sequence after `finalize`. -/
theorem c4_deterministic :
    (∀ (f : List Char) (r r' : Nat) (s : FmtState),
      print_fragment f r s = print_fragment f r' s) ∧
    (∀ (frags : List (List Char)) (s₁ s₂ : FmtState),
      s₁ = FmtState.start → s₂ = FmtState.start →
      (feedAll frags s₁).bot_response_buffer =
        (feedAll frags s₂).bot_response_buffer ∧
      (finalize (feedAll frags s₁)).out = (finalize (feedAll frags s₂)).out) := by
  refine ⟨fun f r r' s => rfl, ?_⟩
  rintro frags s₁ s₂ rfl rfl
  exact ⟨rfl, rfl⟩

theorem c4_deterministic_witness :
    print_fragment "a".toList 0 FmtState.start =
      print_fragment "a".toList 5 FmtState.start ∧
    (feedAll ["a".toList] FmtState.start).bot_response_buffer =
      (feedAll ["a".toList] FmtState.start).bot_response_buffer ∧
    (finalize (feedAll ["a".toList] FmtState.start)).out =
      (finalize (feedAll ["a".toList] FmtState.start)).out :=
  ⟨c4_deterministic.1 "a".toList 0 5 FmtState.start,
    c4_deterministic.2 ["a".toList] FmtState.start FmtState.start rfl rfl⟩

/-! ## Loop termination and buffer drainage (claim C10) -/

/-- C10: every iteration of the `_process_buffer` dispatch loop strictly
decreases the pending buffer, so the loop terminates (any fuel beyond the
buffer length computes the same fixed point), and after `print_fragment` or
`finalize` returns the pending buffer is empty. -/
theorem c10_loop_terminates :
    (∀ s : FmtState, s.current_buffer ≠ [] →
      (process_step s).current_buffer.length < s.current_buffer.length) ∧
    (∀ (fuel : Nat) (s : FmtState), s.current_buffer.length < fuel →
      process_buffer_fuel fuel s = process_buffer s) ∧
    (∀ (f : List Char) (r : Nat) (s : FmtState),
      (print_fragment f r s).current_buffer = []) ∧
    (∀ s : FmtState, (finalize s).current_buffer = []) := by
  refine ⟨process_step_decreases, ?_, ?_, ?_⟩
  · intro fuel s h
    exact process_buffer_fuel_irrel fuel (s.current_buffer.length + 1) s h
      (by omega)
  · intro f r s
    unfold print_fragment
    exact process_buffer_buffer_nil _
  · intro s
    have h1 := process_buffer_buffer_nil s
    unfold finalize
    by_cases hm : ((process_buffer s).in_think_content_mode ||
        (process_buffer s).in_analysis_mode) = true <;>
      by_cases hr : pystrip (process_buffer s).bot_response_buffer ≠ [] <;>
      simp [hm, hr, h1]

theorem c10_loop_terminates_witness :
    (process_step { FmtState.start with current_buffer := "x".toList }).current_buffer.length <
      ({ FmtState.start with current_buffer := "x".toList } : FmtState).current_buffer.length ∧
    process_buffer_fuel 1 FmtState.start = process_buffer FmtState.start ∧
    (print_fragment "a".toList 0 FmtState.start).current_buffer = [] ∧
    (finalize FmtState.start).current_buffer = [] :=
  ⟨c10_loop_terminates.1 { FmtState.start with current_buffer := "x".toList }
      (by decide),
    c10_loop_terminates.2.1 1 FmtState.start (by decide),
    c10_loop_terminates.2.2.1 "a".toList 0 FmtState.start,
    c10_loop_terminates.2.2.2 FmtState.start⟩

/-! ## The channel-block split theorem (claim C2) -/

def analysisInv (X Y : List Char) (c : Nat) (s : FmtState) : Prop :=
  s.in_think_content_mode = false ∧ s.in_analysis_mode = true ∧
  s.current_buffer = [] ∧ s.bot_response_buffer = [] ∧
  analysisOut s.out = (Y ++ END_CLOSE).take (c - (22 + X.length)) ∧
  thinkOut s.out = [] ∧ mdOut s.out = []

def analysisDone (Y : List Char) (s : FmtState) : Prop :=
  s.in_think_content_mode = false ∧ s.in_analysis_mode = false ∧
  s.current_buffer = [] ∧ s.bot_response_buffer = [] ∧
  analysisOut s.out = Y ∧ thinkOut s.out = [] ∧ mdOut s.out = []

def c2Inv (X Y : List Char) (c : Nat) (s : FmtState) : Prop :=
  (c = 0 ∧ s = FmtState.start) ∨
  (22 + X.length ≤ c ∧ c ≤ 29 + X.length + Y.length ∧ analysisInv X Y c s) ∨
  (c = 29 + X.length + Y.length ∧ analysisDone Y s)

theorem channel_pre_length (X : List Char) :
    (CHANNEL_OPEN ++ X ++ MESSAGE_OPEN).length = 22 + X.length := by
  rw [List.length_append, List.length_append,
    show CHANNEL_OPEN.length = 11 from by decide,
    show MESSAGE_OPEN.length = 11 from by decide]
  omega

theorem channel_stream_length (X Y : List Char) :
    ((CHANNEL_OPEN ++ X ++ MESSAGE_OPEN) ++ (Y ++ END_CLOSE)).length =
      29 + X.length + Y.length := by
  rw [List.length_append, channel_pre_length, List.length_append,
    show END_CLOSE.length = 7 from by decide]
  omega

theorem c2Inv_c_le {X Y : List Char} {c : Nat} {s : FmtState}
    (h : c2Inv X Y c s) : c ≤ 29 + X.length + Y.length := by
  rcases h with ⟨rfl, _⟩ | ⟨_, h2, _⟩ | ⟨rfl, _⟩ <;> omega

theorem c2_step (X Y : List Char)
    (hX : findSub MESSAGE_OPEN (CHANNEL_OPEN ++ X) = none)
    (hY : findSub END_CLOSE Y = none)
    (c : Nat) (s : FmtState) (f : List Char)
    (hf : f = (((CHANNEL_OPEN ++ X ++ MESSAGE_OPEN) ++ (Y ++ END_CLOSE)).drop c).take
      f.length)
    (htot : c + f.length ≤ 29 + X.length + Y.length)
    (hcb' : c + f.length = 0 ∨ 22 + X.length ≤ c + f.length)
    (hinv : c2Inv X Y c s) :
    c2Inv X Y (c + f.length) (print_fragment f 0 s) := by
  have hbfe : borderFree END_CLOSE := by decide
  have htage : END_CLOSE ≠ [] := by decide
  have hSlen : (Y ++ END_CLOSE).length = Y.length + 7 := by
    rw [List.length_append, show END_CLOSE.length = 7 from by decide]
  rcases hinv with ⟨hc0, hs⟩ |
    ⟨hcb, hcle, hn, ha, hbufnil, hbot, hao, hto, hmo⟩ |
    ⟨hctot, hn, ha, hbufnil, hbot, hao, hto, hmo⟩
  · -- pristine state, nothing consumed yet
    subst hs
    subst hc0
    by_cases hf0 : f.length = 0
    · have hfe : f = [] := List.eq_nil_of_length_eq_zero hf0
      subst hfe
      rw [show print_fragment [] 0 FmtState.start = FmtState.start from by
        unfold print_fragment
        rw [process_buffer_of_nil (by simp [FmtState.start])]
        simp [FmtState.start]]
      exact Or.inl ⟨by simp, rfl⟩
    · have hbf : 22 + X.length ≤ f.length := by
        rcases hcb' with h | h
        · omega
        · omega
      have hfshape : f = CHANNEL_OPEN ++ X ++ MESSAGE_OPEN ++
          (Y ++ END_CLOSE).take (f.length - (22 + X.length)) := by
        conv_lhs => rw [hf]
        rw [List.drop_zero, List.take_append_eq_append_take,
          List.take_of_length_le (by rw [channel_pre_length]; omega),
          channel_pre_length]
      unfold print_fragment
      have hbufstart : ({ FmtState.start with
          current_buffer := FmtState.start.current_buffer ++ f }) =
          { FmtState.start with current_buffer := f } := by
        simp [FmtState.start]
      rw [hbufstart]
      rw [channel_entry (by simp [FmtState.start]) (by simp [FmtState.start])
        (by simpa [FmtState.start] using hfshape) hX]
      set s₁ : FmtState := { FmtState.start with
          out := FmtState.start.out ++ [.grey],
          consumed := FmtState.start.consumed ++
            (CHANNEL_OPEN ++ X ++ MESSAGE_OPEN),
          current_buffer := (Y ++ END_CLOSE).take (f.length - (22 + X.length)),
          in_analysis_mode := true } with hs₁
      by_cases hcase : f.length < 29 + X.length + Y.length
      · -- the end marker has not fully arrived: stay in analysis mode
        have hnone : findSub END_CLOSE s₁.current_buffer = none := by
          rw [hs₁]
          exact findSub_take_none hbfe htage hY (f.length - (22 + X.length))
            (by omega)
        obtain ⟨hb', hn', ha', hbot', hto', hao', hmo'⟩ :=
          analysis_chunk_stay (by simp [hs₁, FmtState.start]) (by rw [hs₁]) hnone
        refine Or.inr (Or.inl ⟨by omega, by omega, hn', ha', hb', ?_, ?_, ?_, ?_⟩)
        · rw [hbot']; simp [hs₁, FmtState.start]
        · rw [hao']; rw [hs₁]
          simp [FmtState.start, analysisOut_append, analysisOut]
        · rw [hto']; rw [hs₁]
          simp [FmtState.start, thinkOut_append, thinkOut]
        · rw [hmo']; rw [hs₁]
          simp [FmtState.start, mdOut_append, mdOut]
      · -- the whole stream arrived in this one fragment
        have hbuf₁ : s₁.current_buffer = Y ++ END_CLOSE := by
          rw [hs₁]
          show (Y ++ END_CLOSE).take (f.length - (22 + X.length)) = Y ++ END_CLOSE
          apply List.take_of_length_le
          omega
        obtain ⟨hb', hn', ha', hbot', hto', hao', hmo'⟩ :=
          analysis_chunk_fin (by simp [hs₁, FmtState.start]) (by rw [hs₁]) hbuf₁ hY
        refine Or.inr (Or.inr ⟨by omega, hn', ha', hb', ?_, ?_, ?_, ?_⟩)
        · rw [hbot']; simp [hs₁, FmtState.start]
        · rw [hao']; rw [hs₁]
          simp [FmtState.start, analysisOut_append, analysisOut]
        · rw [hto']; rw [hs₁]
          simp [FmtState.start, thinkOut_append, thinkOut]
        · rw [hmo']; rw [hs₁]
          simp [FmtState.start, mdOut_append, mdOut]
  · -- in analysis mode at position c
    have hfchunk : f = ((Y ++ END_CLOSE).drop (c - (22 + X.length))).take
        f.length := by
      conv_lhs => rw [hf]
      congr 1
      rw [List.drop_append_eq_append_drop,
        List.drop_eq_nil_of_le (by rw [channel_pre_length]; omega),
        List.nil_append, channel_pre_length]
    unfold print_fragment
    have hbufs : ({ s with current_buffer := s.current_buffer ++ f }) =
        { s with current_buffer := f } := by
      rw [hbufnil]; simp
    rw [hbufs]
    set s₀ : FmtState := { s with current_buffer := f } with hs₀
    have hn₀ : s₀.in_think_content_mode = false := by rw [hs₀]; exact hn
    have ha₀ : s₀.in_analysis_mode = true := by rw [hs₀]; exact ha
    by_cases hcase : c + f.length < 29 + X.length + Y.length
    · -- still strictly inside the stream: remain in analysis mode
      have hnone : findSub END_CLOSE s₀.current_buffer = none := by
        show findSub END_CLOSE f = none
        rw [hfchunk]
        exact findSub_chunk_none hbfe htage hY (c - (22 + X.length)) f.length
          (Or.inl (by omega))
      obtain ⟨hb', hn', ha', hbot', hto', hao', hmo'⟩ :=
        analysis_chunk_stay hn₀ ha₀ hnone
      refine Or.inr (Or.inl ⟨by omega, by omega, hn', ha', hb', ?_, ?_, ?_, ?_⟩)
      · rw [hbot']; rw [hs₀]; exact hbot
      · rw [hao']
        rw [show s₀.out = s.out from by rw [hs₀], hao,
          show s₀.current_buffer = f from by rw [hs₀]]
        rw [show c + f.length - (22 + X.length) =
          (c - (22 + X.length)) + f.length from by omega,
          List.take_add, ← hfchunk]
      · rw [hto']; rw [hs₀]; exact hto
      · rw [hmo']; rw [hs₀]; exact hmo
    · -- this fragment reaches the end of the stream
      have hfdrop : f = (Y ++ END_CLOSE).drop (c - (22 + X.length)) := by
        rw [hfchunk]
        apply List.take_of_length_le
        rw [List.length_drop]
        have hflen := congrArg List.length hfchunk
        rw [List.length_take, List.length_drop] at hflen
        omega
      by_cases hcY : c - (22 + X.length) ≤ Y.length
      · -- the end marker arrives in one piece: exit analysis mode
        have hsplit : f = Y.drop (c - (22 + X.length)) ++ END_CLOSE := by
          rw [hfdrop, List.drop_append_eq_append_drop,
            show c - (22 + X.length) - Y.length = 0 from by omega, List.drop_zero]
        have hnone' : findSub END_CLOSE (Y.drop (c - (22 + X.length))) = none :=
          findSub_drop_none hY (c - (22 + X.length))
        obtain ⟨hb', hn', ha', hbot', hto', hao', hmo'⟩ :=
          analysis_chunk_fin hn₀ ha₀ (show s₀.current_buffer = _ from hsplit)
            hnone'
        refine Or.inr (Or.inr ⟨by omega, hn', ha', hb', ?_, ?_, ?_, ?_⟩)
        · rw [hbot']; rw [hs₀]; exact hbot
        · rw [hao']
          rw [show s₀.out = s.out from by rw [hs₀], hao]
          rw [show (Y ++ END_CLOSE).take (c - (22 + X.length)) =
              Y.take (c - (22 + X.length)) from by
            rw [List.take_append_eq_append_take,
              show c - (22 + X.length) - Y.length = 0 from by omega,
              List.take_zero, List.append_nil]]
          exact List.take_append_drop _ Y
        · rw [hto']; rw [hs₀]; exact hto
        · rw [hmo']; rw [hs₀]; exact hmo
      · -- a fragment boundary split the end marker: it is never found
        have hnone : findSub END_CLOSE s₀.current_buffer = none := by
          show findSub END_CLOSE f = none
          rw [hfchunk]
          exact findSub_chunk_none hbfe htage hY (c - (22 + X.length)) f.length
            (Or.inr (by omega))
        obtain ⟨hb', hn', ha', hbot', hto', hao', hmo'⟩ :=
          analysis_chunk_stay hn₀ ha₀ hnone
        refine Or.inr (Or.inl ⟨by omega, by omega, hn', ha', hb', ?_, ?_, ?_, ?_⟩)
        · rw [hbot']; rw [hs₀]; exact hbot
        · rw [hao']
          rw [show s₀.out = s.out from by rw [hs₀], hao,
            show s₀.current_buffer = f from by rw [hs₀]]
          rw [show c + f.length - (22 + X.length) =
            (c - (22 + X.length)) + f.length from by omega,
            List.take_add, ← hfchunk]
        · rw [hto']; rw [hs₀]; exact hto
        · rw [hmo']; rw [hs₀]; exact hmo
  · -- done: only empty fragments can follow
    have hf0 : f.length = 0 := by omega
    have hfe : f = [] := List.eq_nil_of_length_eq_zero hf0
    subst hfe
    unfold print_fragment
    have hbufs : ({ s with current_buffer := s.current_buffer ++ [] }) =
        { s with current_buffer := ([] : List Char) } := by
      rw [hbufnil]; simp
    rw [hbufs, process_buffer_of_nil (by simp)]
    exact Or.inr (Or.inr ⟨by omega, hn, ha, by simp, hbot, hao, hto, hmo⟩)

theorem c2_run (X Y : List Char)
    (hX : findSub MESSAGE_OPEN (CHANNEL_OPEN ++ X) = none)
    (hY : findSub END_CLOSE Y = none) :
    ∀ (frags : List (List Char)) (c : Nat) (s : FmtState),
      c2Inv X Y c s →
      ((CHANNEL_OPEN ++ X ++ MESSAGE_OPEN) ++ (Y ++ END_CLOSE)).drop c =
        frags.flatten →
      (∀ i, i < frags.length →
        c + ((frags.take i).flatten).length = 0 ∨
        22 + X.length ≤ c + ((frags.take i).flatten).length) →
      c2Inv X Y (29 + X.length + Y.length) (feedAll frags s) := by
  intro frags
  induction frags with
  | nil =>
    intro c s hinv hrest _
    have hlen := congrArg List.length hrest
    rw [List.length_drop, channel_stream_length] at hlen
    simp only [List.flatten_nil, List.length_nil] at hlen
    have hle := c2Inv_c_le hinv
    have hctot : c = 29 + X.length + Y.length := by omega
    subst hctot
    exact hinv
  | cons f rest ih =>
    intro c s hinv hrest hbnd
    have hle := c2Inv_c_le hinv
    have hlen := congrArg List.length hrest
    rw [List.length_drop, channel_stream_length] at hlen
    simp only [List.flatten_cons, List.length_append] at hlen
    have htot : c + f.length ≤ 29 + X.length + Y.length := by omega
    have hf : f = (((CHANNEL_OPEN ++ X ++ MESSAGE_OPEN) ++
        (Y ++ END_CLOSE)).drop c).take f.length := by
      rw [hrest, List.flatten_cons, List.take_left]
    have hcb' : c + f.length = 0 ∨ 22 + X.length ≤ c + f.length := by
      cases rest with
      | nil =>
        right
        simp only [List.flatten_nil, List.length_nil] at hlen
        omega
      | cons g rest' =>
        have h := hbnd 1 (by simp only [List.length_cons]; omega)
        simp only [List.take_succ_cons, List.take_zero, List.flatten_cons,
          List.flatten_nil, List.append_nil, List.length_append] at h
        rcases h with h | h
        · left; omega
        · right; omega
    have hstep := c2_step X Y hX hY c s f hf htot hcb' hinv
    have hrest' : ((CHANNEL_OPEN ++ X ++ MESSAGE_OPEN) ++
        (Y ++ END_CLOSE)).drop (c + f.length) = rest.flatten := by
      rw [← List.drop_drop, hrest, List.flatten_cons, List.drop_left]
    have hbnd' : ∀ i, i < rest.length →
        (c + f.length) + ((rest.take i).flatten).length = 0 ∨
        22 + X.length ≤ (c + f.length) + ((rest.take i).flatten).length := by
      intro i hi
      have h := hbnd (i + 1) (by simp only [List.length_cons]; omega)
      simp only [List.take_succ_cons, List.flatten_cons, List.length_append] at h
      rcases h with h | h
      · left; omega
      · right; omega
    have hfold : feedAll (f :: rest) s = feedAll rest (print_fragment f 0 s) := rfl
    rw [hfold]
    exact ih (c + f.length) (print_fragment f 0 s) hstep hrest' hbnd'

/-- C2 (amended): for every split of a `<|channel|>X<|message|>Y<|end|>`
stream whose fragment boundaries do not fall strictly inside the leading
`<|channel|>X<|message|>` portion (and with `X` not completing a premature
`<|message|>` and `Y` containing no `<|end|>`), the channel name `X` is
discarded: the visible accumulator stays empty, the analysis channel receives
exactly `Y` (possibly followed by pieces of `<|end|>` when a boundary splits
that marker), the think channel receives nothing, and the final markdown
rendering emits nothing. -/
theorem c2_channel_split_amended (X Y : List Char) (frags : List (List Char))
    (hX : findSub MESSAGE_OPEN (CHANNEL_OPEN ++ X) = none)
    (hY : findSub END_CLOSE Y = none)
    (hjoin : frags.flatten = CHANNEL_OPEN ++ X ++ MESSAGE_OPEN ++ Y ++ END_CLOSE)
    (hbnd : ∀ i, i < frags.length →
      ((frags.take i).flatten).length = 0 ∨
      22 + X.length ≤ ((frags.take i).flatten).length) :
    (feedAll frags FmtState.start).bot_response_buffer = [] ∧
    Y <+: analysisOut (feedAll frags FmtState.start).out ∧
    analysisOut (feedAll frags FmtState.start).out <+: Y ++ END_CLOSE ∧
    thinkOut (feedAll frags FmtState.start).out = [] ∧
    (runFormatter frags).bot_response_buffer = [] ∧
    mdOut (runFormatter frags).out = [] ∧
    analysisOut (runFormatter frags).out =
      analysisOut (feedAll frags FmtState.start).out := by
  unfold runFormatter
  have hinv0 : c2Inv X Y 0 FmtState.start := Or.inl ⟨rfl, rfl⟩
  have hrest : ((CHANNEL_OPEN ++ X ++ MESSAGE_OPEN) ++ (Y ++ END_CLOSE)).drop 0 =
      frags.flatten := by
    rw [List.drop_zero, hjoin]
    simp [List.append_assoc]
  have hbnd0 : ∀ i, i < frags.length →
      0 + ((frags.take i).flatten).length = 0 ∨
      22 + X.length ≤ 0 + ((frags.take i).flatten).length := by
    intro i hi
    simpa using hbnd i hi
  have hfin := c2_run X Y hX hY frags 0 FmtState.start hinv0 hrest hbnd0
  have hSlen : (Y ++ END_CLOSE).length = Y.length + 7 := by
    rw [List.length_append, show END_CLOSE.length = 7 from by decide]
  rcases hfin with ⟨h0, _⟩ | ⟨_, _, _, _, hb, hbot, hao, hto, hmo⟩ |
    ⟨_, _, _, hb, hbot, hao, hto, hmo⟩
  · omega
  · -- the end marker was split: the printer is still in analysis mode
    have haoS : analysisOut (feedAll frags FmtState.start).out =
        Y ++ END_CLOSE := by
      rw [hao]
      apply List.take_of_length_le
      rw [hSlen]
      omega
    obtain ⟨hf1, hf2, hf3, hf4⟩ := finalize_clean hb hbot
    refine ⟨hbot, ?_, ?_, hto, hf1, ?_, ?_⟩
    · rw [haoS]; exact List.prefix_append _ _
    · rw [haoS]
    · rw [hf4, hmo]
    · exact hf3
  · -- the end marker arrived whole: clean exit
    obtain ⟨hf1, hf2, hf3, hf4⟩ := finalize_clean hb hbot
    refine ⟨hbot, ?_, ?_, hto, hf1, ?_, ?_⟩
    · rw [hao]
    · rw [hao]; exact List.prefix_append _ _
    · rw [hf4, hmo]
    · exact hf3

/-- C2 witness: the whole channel block in a single fragment followed by an
empty fragment. -/
theorem c2_channel_split_amended_witness :
    (feedAll ["<|channel|>analysis<|message|>ok<|end|>".toList]
      FmtState.start).bot_response_buffer = [] ∧
    "ok".toList <+: analysisOut (feedAll
      ["<|channel|>analysis<|message|>ok<|end|>".toList] FmtState.start).out ∧
    analysisOut (feedAll ["<|channel|>analysis<|message|>ok<|end|>".toList]
      FmtState.start).out <+: "ok".toList ++ END_CLOSE ∧
    thinkOut (feedAll ["<|channel|>analysis<|message|>ok<|end|>".toList]
      FmtState.start).out = [] ∧
    (runFormatter ["<|channel|>analysis<|message|>ok<|end|>".toList]).bot_response_buffer
      = [] ∧
    mdOut (runFormatter ["<|channel|>analysis<|message|>ok<|end|>".toList]).out
      = [] ∧
    analysisOut (runFormatter
      ["<|channel|>analysis<|message|>ok<|end|>".toList]).out =
      analysisOut (feedAll ["<|channel|>analysis<|message|>ok<|end|>".toList]
        FmtState.start).out :=
  c2_channel_split_amended "analysis".toList "ok".toList
    ["<|channel|>analysis<|message|>ok<|end|>".toList]
    (by decide) (by decide) (by decide) (by decide)

/-- C2 as literally stated is false: when the fragment boundary falls between
the channel name and `<|message|>`, the whole block, channel name `X`
included, is appended to the visible accumulator and rendered at `finalize`,
and nothing reaches the dim analysis channel. -/
theorem c2_counterexample :
    (feedAll ["<|channel|>analysis".toList, "<|message|>ok<|end|>".toList]
      FmtState.start).bot_response_buffer =
      "<|channel|>analysis<|message|>ok<|end|>".toList ∧
    analysisOut (feedAll ["<|channel|>analysis".toList,
      "<|message|>ok<|end|>".toList] FmtState.start).out = [] ∧
    mdOut (runFormatter ["<|channel|>analysis".toList,
      "<|message|>ok<|end|>".toList]).out =
      ["<|channel|>analysis<|message|>ok<|end|>".toList] := by
  decide

/-! ## The progress / ETA estimator

Embedding of `searchagent/ui/progress.py` (`class ProgressBarPrinter`), with
the configuration defaults of `ProgressConfig` from
`searchagent/config/settings.py`.  Python floats are modelled as `ℚ`; the
current wall-clock instant (`time.time()`) is passed in explicitly as `now`
(the second `time.time()` call inside `_render` is modelled as the same
instant).  Operations that can raise in Python — arithmetic on `None` and
division by zero — return `Except`, so "never raises" is a provable statement
about the embedding.
-/

def ema_alpha : ℚ := 3 / 10
def bar_width : Nat := 30
def update_interval : ℚ := 1 / 10
def reset_threshold : ℚ := 90

/-- Python `int(...)` truncation toward zero. -/
def pytrunc (q : ℚ) : Int := if 0 ≤ q then ⌊q⌋ else ⌈q⌉

/-- One rendered progress line: the data that `_render` interpolates into the
terminal string.  `eta = none` renders the `"Calculating..."` placeholder. -/
structure RenderLine where
  pct : ℚ
  eta : Option ℚ
  elapsed : ℚ
  filled : Int
deriving DecidableEq, Repr

/-- State of `ProgressBarPrinter` (fields as in `__init__`) plus the log of
rendered lines. -/
structure ProgressState where
  start_time : Option ℚ
  last_time : Option ℚ
  ema_speed : Option ℚ
  alpha : ℚ
  last_pct : ℚ
  first_call : Bool
  rendered : List RenderLine
deriving DecidableEq, Repr

/-- `ProgressBarPrinter.__init__`. -/
def ProgressState.start : ProgressState :=
  { start_time := none, last_time := none, ema_speed := none,
    alpha := ema_alpha, last_pct := 0, first_call := true, rendered := [] }

/-- Division as Python performs it: raises `ZeroDivisionError` on a zero
denominator. -/
def ratDivE (a b : ℚ) : Except String ℚ :=
  if b = 0 then .error "ZeroDivisionError" else .ok (a / b)

/-- `ProgressBarPrinter._render`.  The guard mirrors Python's
`if self.ema_speed and self.ema_speed > 0:` (both `None` and `0.0` are
falsy); `elapsed` mirrors `if self.start_time:` truthiness. -/
def etaOf (pct : ℚ) (s : ProgressState) : Except String (Option ℚ) :=
  match s.ema_speed with
  | some v =>
    if v ≠ 0 ∧ 0 < v then
      match ratDivE (100 - pct) v with
      | .ok e => .ok (some e)
      | .error msg => .error msg
    else .ok none
  | none => .ok none

def renderE (pct now : ℚ) (s : ProgressState) : Except String RenderLine :=
  match etaOf pct s with
  | .error msg => .error msg
  | .ok eta =>
    .ok { pct := pct
          eta := eta
          elapsed :=
            match s.start_time with
            | some st => if st ≠ 0 then now - st else 0
            | none => 0
          filled := pytrunc ((bar_width : ℚ) * (pct / 100)) }

theorem etaOf_eq_some {pct v : ℚ} {s : ProgressState}
    (hv : s.ema_speed = some v) :
    etaOf pct s =
      if v ≠ 0 ∧ 0 < v then
        match ratDivE (100 - pct) v with
        | .ok e => .ok (some e)
        | .error msg => .error msg
      else .ok none := by
  unfold etaOf
  rw [hv]

theorem etaOf_eq_none {pct : ℚ} {s : ProgressState}
    (hv : s.ema_speed = none) : etaOf pct s = .ok none := by
  unfold etaOf
  rw [hv]

theorem renderE_eq_ok {pct now : ℚ} {eta : Option ℚ} {s : ProgressState}
    (h : etaOf pct s = .ok eta) :
    renderE pct now s =
      .ok { pct := pct
            eta := eta
            elapsed :=
              match s.start_time with
              | some st => if st ≠ 0 then now - st else 0
              | none => 0
            filled := pytrunc ((bar_width : ℚ) * (pct / 100)) } := by
  unfold renderE
  rw [h]

def renderTo (pct now : ℚ) (s : ProgressState) : Except String ProgressState :=
  match renderE pct now s with
  | .ok line => .ok { s with rendered := s.rendered ++ [line] }
  | .error msg => .error msg

/-- `update_progress` lines 47-50: normalize the observation to 0-100. -/
def normalize_pct (progress : ℚ) : ℚ :=
  if progress ≤ 1 then progress * 100 else progress

/-- `update_progress` lines 54-56: first-call bookkeeping. -/
def apply_first_call (s : ProgressState) : ProgressState :=
  if s.first_call then { s with first_call := false } else s

/-- `update_progress` lines 58-64: phase-reset detection. -/
def apply_phase_reset (pct : ℚ) (s : ProgressState) : ProgressState :=
  if s.last_pct ≥ reset_threshold ∧ pct < 50 then
    { s with
      start_time := none
      last_time := none
      ema_speed := none
      last_pct := 0 }
  else s

/-- The body of `update_progress` after normalization, first-call handling and
phase-reset detection (lines 66-93), operating on the post-reset state. -/
def update_core (pct now : ℚ) (s2 : ProgressState) : Except String ProgressState :=
  match s2.start_time with
  | none =>
    if 0 < pct then
      renderTo pct now
        { s2 with
          start_time := some now
          last_time := some now
          last_pct := pct }
    else
      renderTo pct now s2
  | some _ =>
    match s2.last_time with
    | none => .error "TypeError"
    | some lt =>
      if update_interval < now - lt ∨ 100 ≤ pct then
        if 0 < now - lt then
          match ratDivE (pct - s2.last_pct) (now - lt) with
          | .error msg => .error msg
          | .ok speed =>
            renderTo pct now
              { s2 with
                ema_speed := some (match s2.ema_speed with
                  | none => speed
                  | some e => s2.alpha * speed + (1 - s2.alpha) * e)
                last_time := some now
                last_pct := pct }
        else
          renderTo pct now
            { s2 with
              last_time := some now
              last_pct := pct }
      else
        .ok s2

/-- `ProgressBarPrinter.update_progress`. -/
def update_progressE (progress now : ℚ) (s : ProgressState) :
    Except String ProgressState :=
  update_core (normalize_pct progress) now
    (apply_phase_reset (normalize_pct progress) (apply_first_call s))

def run_progressE : List (ℚ × ℚ) → ProgressState → Except String ProgressState
  | [], s => .ok s
  | (p, t) :: rest, s =>
    match update_progressE p t s with
    | .error msg => .error msg
    | .ok s' => run_progressE rest s'

def okState : Except String ProgressState → Option ProgressState
  | .ok s => some s
  | .error _ => none

/-! ## Progress estimator lemmas -/

theorem renderE_ok (pct now : ℚ) (s : ProgressState) :
    ∃ line, renderE pct now s = .ok line := by
  cases hv : s.ema_speed with
  | none => exact ⟨_, renderE_eq_ok (etaOf_eq_none hv)⟩
  | some v =>
    by_cases hc : v ≠ 0 ∧ 0 < v
    · have heta : etaOf pct s = .ok (some ((100 - pct) / v)) := by
        rw [etaOf_eq_some hv, if_pos hc]
        unfold ratDivE
        rw [if_neg hc.1]
      exact ⟨_, renderE_eq_ok heta⟩
    · have heta : etaOf pct s = .ok none := by
        rw [etaOf_eq_some hv, if_neg hc]
      exact ⟨_, renderE_eq_ok heta⟩

theorem renderTo_ok (pct now : ℚ) (x : ProgressState) :
    ∃ s', renderTo pct now x = .ok s' := by
  obtain ⟨line, hl⟩ := renderE_ok pct now x
  exact ⟨_, by unfold renderTo; rw [hl]⟩

theorem renderTo_fields {pct now : ℚ} {x s' : ProgressState}
    (h : renderTo pct now x = .ok s') :
    s'.start_time = x.start_time ∧ s'.last_time = x.last_time ∧
    s'.ema_speed = x.ema_speed ∧ s'.last_pct = x.last_pct := by
  unfold renderTo at h
  cases hre : renderE pct now x with
  | error msg => rw [hre] at h; exact absurd h (by simp)
  | ok line =>
    rw [hre] at h
    injection h with h'
    subst h'
    exact ⟨rfl, rfl, rfl, rfl⟩

theorem apply_first_call_fields (s : ProgressState) :
    (apply_first_call s).start_time = s.start_time ∧
    (apply_first_call s).last_time = s.last_time ∧
    (apply_first_call s).ema_speed = s.ema_speed ∧
    (apply_first_call s).last_pct = s.last_pct := by
  unfold apply_first_call
  split <;> exact ⟨rfl, rfl, rfl, rfl⟩

theorem update_core_eq_none {pct now : ℚ} {s2 : ProgressState}
    (h : s2.start_time = none) :
    update_core pct now s2 =
      if 0 < pct then
        renderTo pct now
          { s2 with start_time := some now, last_time := some now, last_pct := pct }
      else renderTo pct now s2 := by
  unfold update_core
  rw [h]

theorem update_core_eq_some {pct now st lt : ℚ} {s2 : ProgressState}
    (h1 : s2.start_time = some st) (h2 : s2.last_time = some lt) :
    update_core pct now s2 =
      if update_interval < now - lt ∨ 100 ≤ pct then
        if 0 < now - lt then
          match ratDivE (pct - s2.last_pct) (now - lt) with
          | .error msg => .error msg
          | .ok speed =>
            renderTo pct now
              { s2 with
                ema_speed := some (match s2.ema_speed with
                  | none => speed
                  | some e => s2.alpha * speed + (1 - s2.alpha) * e)
                last_time := some now
                last_pct := pct }
        else
          renderTo pct now
            { s2 with last_time := some now, last_pct := pct }
      else .ok s2 := by
  unfold update_core
  rw [h1, h2]

theorem update_core_ok (pct now : ℚ) (s2 : ProgressState)
    (hWF : s2.start_time.isSome = s2.last_time.isSome) :
    ∃ s', update_core pct now s2 = .ok s' ∧
      s'.start_time.isSome = s'.last_time.isSome := by
  cases hst : s2.start_time with
  | none =>
    rw [update_core_eq_none hst]
    by_cases hp : 0 < pct
    · rw [if_pos hp]
      obtain ⟨s', hs'⟩ := renderTo_ok pct now
        { s2 with start_time := some now, last_time := some now, last_pct := pct }
      refine ⟨s', hs', ?_⟩
      obtain ⟨hf1, hf2, _, _⟩ := renderTo_fields hs'
      rw [hf1, hf2]
    · rw [if_neg hp]
      obtain ⟨s', hs'⟩ := renderTo_ok pct now s2
      refine ⟨s', hs', ?_⟩
      obtain ⟨hf1, hf2, _, _⟩ := renderTo_fields hs'
      rw [hf1, hf2]
      exact hWF
  | some st =>
    rw [hst] at hWF
    cases hlt : s2.last_time with
    | none => rw [hlt] at hWF; exact absurd hWF (by simp)
    | some lt =>
      rw [update_core_eq_some hst hlt]
      by_cases hdt : update_interval < now - lt ∨ 100 ≤ pct
      · rw [if_pos hdt]
        by_cases hdt0 : 0 < now - lt
        · rw [if_pos hdt0]
          have hdiv : ratDivE (pct - s2.last_pct) (now - lt) =
              .ok ((pct - s2.last_pct) / (now - lt)) := by
            unfold ratDivE
            rw [if_neg (by intro h0; rw [h0] at hdt0; exact absurd hdt0 (by simp))]
          rw [hdiv]
          obtain ⟨s', hs'⟩ := renderTo_ok pct now
            { s2 with
              ema_speed := some (match s2.ema_speed with
                | none => (pct - s2.last_pct) / (now - lt)
                | some e => s2.alpha * ((pct - s2.last_pct) / (now - lt)) +
                    (1 - s2.alpha) * e)
              last_time := some now
              last_pct := pct }
          refine ⟨s', hs', ?_⟩
          obtain ⟨hf1, hf2, _, _⟩ := renderTo_fields hs'
          rw [hf1, hf2, hst]
          simp
        · rw [if_neg hdt0]
          obtain ⟨s', hs'⟩ := renderTo_ok pct now
            { s2 with last_time := some now, last_pct := pct }
          refine ⟨s', hs', ?_⟩
          obtain ⟨hf1, hf2, _, _⟩ := renderTo_fields hs'
          rw [hf1, hf2, hst]
          simp
      · rw [if_neg hdt]
        refine ⟨s2, rfl, ?_⟩
        rw [hst, hlt]
        simp

theorem apply_phase_reset_WF (pct : ℚ) (s : ProgressState)
    (h : s.start_time.isSome = s.last_time.isSome) :
    (apply_phase_reset pct s).start_time.isSome =
      (apply_phase_reset pct s).last_time.isSome := by
  unfold apply_phase_reset
  split
  · rfl
  · exact h

theorem update_progressE_ok (p t : ℚ) (s : ProgressState)
    (h : s.start_time.isSome = s.last_time.isSome) :
    ∃ s', update_progressE p t s = .ok s' ∧
      s'.start_time.isSome = s'.last_time.isSome := by
  unfold update_progressE
  apply update_core_ok
  apply apply_phase_reset_WF
  obtain ⟨hfc1, hfc2, _, _⟩ := apply_first_call_fields s
  rw [hfc1, hfc2]
  exact h

theorem run_progressE_ok :
    ∀ (inputs : List (ℚ × ℚ)) (s : ProgressState),
      s.start_time.isSome = s.last_time.isSome →
      ∃ s', run_progressE inputs s = .ok s' ∧
        s'.start_time.isSome = s'.last_time.isSome := by
  intro inputs
  induction inputs with
  | nil => intro s h; exact ⟨s, rfl, h⟩
  | cons pt rest ih =>
    intro s h
    obtain ⟨p, t⟩ := pt
    obtain ⟨s', hs', hWF⟩ := update_progressE_ok p t s h
    obtain ⟨s'', hs'', hWF'⟩ := ih s' hWF
    refine ⟨s'', ?_, hWF'⟩
    unfold run_progressE
    rw [hs']
    exact hs''

theorem update_core_last_pct (pct now : ℚ) (s2 s' : ProgressState)
    (h : update_core pct now s2 = .ok s') :
    s'.last_pct = pct ∨ s'.last_pct = s2.last_pct := by
  cases hst : s2.start_time with
  | none =>
    rw [update_core_eq_none hst] at h
    by_cases hp : 0 < pct
    · rw [if_pos hp] at h
      obtain ⟨_, _, _, hf4⟩ := renderTo_fields h
      exact Or.inl (by rw [hf4])
    · rw [if_neg hp] at h
      obtain ⟨_, _, _, hf4⟩ := renderTo_fields h
      exact Or.inr (by rw [hf4])
  | some st =>
    cases hlt : s2.last_time with
    | none =>
      rw [show update_core pct now s2 = Except.error "TypeError" from by
        unfold update_core; rw [hst, hlt]] at h
      exact absurd h (by simp)
    | some lt =>
      rw [update_core_eq_some hst hlt] at h
      by_cases hdt : update_interval < now - lt ∨ 100 ≤ pct
      · rw [if_pos hdt] at h
        by_cases hdt0 : 0 < now - lt
        · rw [if_pos hdt0] at h
          have hdiv : ratDivE (pct - s2.last_pct) (now - lt) =
              .ok ((pct - s2.last_pct) / (now - lt)) := by
            unfold ratDivE
            rw [if_neg (by intro h0; rw [h0] at hdt0; exact absurd hdt0 (by simp))]
          rw [hdiv] at h
          obtain ⟨_, _, _, hf4⟩ := renderTo_fields h
          exact Or.inl (by rw [hf4])
        · rw [if_neg hdt0] at h
          obtain ⟨_, _, _, hf4⟩ := renderTo_fields h
          exact Or.inl (by rw [hf4])
      · rw [if_neg hdt] at h
        injection h with h'
        subst h'
        exact Or.inr rfl

theorem update_last_pct_mono (p t : ℚ) (s s' : ProgressState)
    (h : update_progressE p t s = .ok s')
    (hmono : s.last_pct ≤ normalize_pct p) :
    s.last_pct ≤ s'.last_pct := by
  obtain ⟨hfc1, hfc2, hfc3, hfc4⟩ := apply_first_call_fields s
  have hnores : apply_phase_reset (normalize_pct p) (apply_first_call s) =
      apply_first_call s := by
    unfold apply_phase_reset
    rw [if_neg]
    rintro ⟨h1, h2⟩
    rw [hfc4] at h1
    have h90 : (90 : ℚ) ≤ s.last_pct := h1
    linarith
  unfold update_progressE at h
  rw [hnores] at h
  rcases update_core_last_pct _ _ _ _ h with heq | heq
  · rw [heq]; exact hmono
  · rw [heq, hfc4]

theorem update_phase_reset (p t : ℚ) (s s' : ProgressState)
    (h : update_progressE p t s = .ok s')
    (hhi : reset_threshold ≤ s.last_pct) (hlo : normalize_pct p < 50) :
    s'.ema_speed = none ∧
    (0 < normalize_pct p →
      s'.start_time = some t ∧ s'.last_pct = normalize_pct p) ∧
    (normalize_pct p ≤ 0 → s'.start_time = none ∧ s'.last_pct = 0) := by
  obtain ⟨hfc1, hfc2, hfc3, hfc4⟩ := apply_first_call_fields s
  have hres : apply_phase_reset (normalize_pct p) (apply_first_call s) =
      { apply_first_call s with
        start_time := none
        last_time := none
        ema_speed := none
        last_pct := 0 } := by
    unfold apply_phase_reset
    rw [if_pos ⟨by rw [hfc4]; exact hhi, hlo⟩]
  unfold update_progressE at h
  rw [hres] at h
  have h0 : ({ apply_first_call s with
      start_time := none
      last_time := none
      ema_speed := none
      last_pct := 0 } : ProgressState).start_time = none := rfl
  rw [update_core_eq_none h0] at h
  by_cases hp : 0 < normalize_pct p
  · rw [if_pos hp] at h
    obtain ⟨hf1, _, hf3, hf4⟩ := renderTo_fields h
    refine ⟨by rw [hf3], fun _ => ⟨by rw [hf1], by rw [hf4]⟩, fun hle => ?_⟩
    exact absurd hp (not_lt.mpr hle)
  · rw [if_neg hp] at h
    obtain ⟨hf1, _, hf3, hf4⟩ := renderTo_fields h
    exact ⟨by rw [hf3], fun hp' => absurd hp' hp,
      fun _ => ⟨by rw [hf1], by rw [hf4]⟩⟩

/-! ## Claims C5 and C6 -/

/-- C5 (amended): within a phase `last_pct` never decreases as long as the
incoming normalized percentage is at least the recorded one (it can decrease
when the signal itself decreases without crossing the reset thresholds, as the
counterexample shows); a downward jump from at or above the reset threshold
(90) to below 50 forces a phase reset — `ema_speed` cleared, and the phase
re-anchored at the new observation (`start_time := now`, `last_pct := pct`
when the new value is positive, fully cleared when it is not) — and the
concrete run `[95, 96, 98, 20]` discards the prior smoothed rate `13/10` and
re-anchors at the `20` observation. -/
theorem c5_phase_reset_amended :
    (∀ (p t : ℚ) (s s' : ProgressState),
      update_progressE p t s = .ok s' →
      s.last_pct ≤ normalize_pct p →
      s.last_pct ≤ s'.last_pct) ∧
    (∀ (p t : ℚ) (s s' : ProgressState),
      update_progressE p t s = .ok s' →
      reset_threshold ≤ s.last_pct → normalize_pct p < 50 →
      s'.ema_speed = none ∧
      (0 < normalize_pct p →
        s'.start_time = some t ∧ s'.last_pct = normalize_pct p) ∧
      (normalize_pct p ≤ 0 → s'.start_time = none ∧ s'.last_pct = 0)) ∧
    (okState (run_progressE [(95, 0), (96, 1), (98, 2)] ProgressState.start)).map
      (fun s => s.ema_speed) = some (some (13 / 10)) ∧
    (okState (run_progressE [(95, 0), (96, 1), (98, 2), (20, 3)]
      ProgressState.start)).map
      (fun s => (s.ema_speed, s.start_time, s.last_pct)) =
      some (none, some 3, 20) :=
  ⟨update_last_pct_mono, update_phase_reset, by norm_num [run_progressE, update_progressE, normalize_pct, apply_first_call,
    apply_phase_reset, update_core, renderTo, renderE, etaOf, ratDivE, okState,
    ProgressState.start, update_interval, reset_threshold, ema_alpha, pytrunc,
    bar_width], by norm_num [run_progressE, update_progressE, normalize_pct, apply_first_call,
    apply_phase_reset, update_core, renderTo, renderE, etaOf, ratDivE, okState,
    ProgressState.start, update_interval, reset_threshold, ema_alpha, pytrunc,
    bar_width]⟩

/-- C5 as literally stated is false: a drop from 80 to 10 does not trigger the
reset (80 < 90), yet `last_pct` decreases from 80 to 10 inside the same phase
(`start_time` keeps its original anchor). -/
theorem c5_counterexample :
    (okState (run_progressE [(80, 0)] ProgressState.start)).map
      (fun s => (s.last_pct, s.start_time)) = some (80, some 0) ∧
    (okState (run_progressE [(80, 0), (10, 1)] ProgressState.start)).map
      (fun s => (s.last_pct, s.start_time, s.ema_speed)) =
      some (10, some 0, some (-70)) := by
  norm_num [run_progressE, update_progressE, normalize_pct, apply_first_call,
    apply_phase_reset, update_core, renderTo, renderE, etaOf, ratDivE, okState,
    ProgressState.start, update_interval, reset_threshold, ema_alpha, pytrunc,
    bar_width]

def c5_after_50 : ProgressState :=
  { start_time := some 0
    last_time := some 0
    ema_speed := none
    alpha := 3 / 10
    last_pct := 50
    first_call := false
    rendered := [{ pct := 50, eta := none, elapsed := 0, filled := 15 }] }

def c5_high : ProgressState :=
  { start_time := some 0
    last_time := some 0
    ema_speed := some 1
    alpha := 3 / 10
    last_pct := 95
    first_call := false
    rendered := [] }

def c5_after_reset : ProgressState :=
  { start_time := some 1
    last_time := some 1
    ema_speed := none
    alpha := 3 / 10
    last_pct := 20
    first_call := false
    rendered := [{ pct := 20, eta := none, elapsed := 0, filled := 6 }] }

theorem c5_phase_reset_amended_witness :
    ProgressState.start.last_pct ≤ c5_after_50.last_pct ∧
    c5_after_reset.ema_speed = none ∧
    c5_after_reset.start_time = some 1 ∧
    c5_after_reset.last_pct = normalize_pct 20 := by
  have h1 : update_progressE 50 0 ProgressState.start = .ok c5_after_50 := by
    norm_num [run_progressE, update_progressE, normalize_pct, apply_first_call,
    apply_phase_reset, update_core, renderTo, renderE, etaOf, ratDivE, okState,
    ProgressState.start, c5_after_50, update_interval, reset_threshold, ema_alpha, pytrunc,
    bar_width]
  have h2 : update_progressE 20 1 c5_high = .ok c5_after_reset := by
    norm_num [run_progressE, update_progressE, normalize_pct, apply_first_call,
    apply_phase_reset, update_core, renderTo, renderE, etaOf, ratDivE, okState,
    ProgressState.start, c5_high, c5_after_reset, update_interval,
    reset_threshold, ema_alpha, pytrunc, bar_width]
  have hm := c5_phase_reset_amended.1 50 0 ProgressState.start c5_after_50 h1
    (by decide)
  have hr := c5_phase_reset_amended.2.1 20 1 c5_high c5_after_reset h2
    (by decide) (by decide)
  exact ⟨hm, hr.1, (hr.2.1 (by decide)).1, (hr.2.1 (by decide)).2⟩

/-- C6: `update_progress` and `_render` never raise for any sequence of
observations and timestamps: every run from the initial state returns
`.ok` (the `None`-arithmetic and the two divisions, both modelled as raising
operations, are never reached unguarded); the ETA division
`(100 - pct) / ema_speed` is performed exactly when `ema_speed` is present and
strictly positive, and otherwise the rendered line carries the
`Calculating...` placeholder (`eta = none`). -/
theorem c6_no_exceptions :
    (∀ inputs : List (ℚ × ℚ),
      ∃ s', run_progressE inputs ProgressState.start = .ok s') ∧
    (∀ (pct now : ℚ) (s : ProgressState) (v : ℚ),
      s.ema_speed = some v → 0 < v →
      ∃ line, renderE pct now s = .ok line ∧
        line.eta = some ((100 - pct) / v)) ∧
    (∀ (pct now : ℚ) (s : ProgressState),
      (∀ v, s.ema_speed = some v → v ≤ 0) →
      ∃ line, renderE pct now s = .ok line ∧ line.eta = none) := by
  refine ⟨?_, ?_, ?_⟩
  · intro inputs
    obtain ⟨s', hs', _⟩ := run_progressE_ok inputs ProgressState.start rfl
    exact ⟨s', hs'⟩
  · intro pct now s v hv hvpos
    have heta : etaOf pct s = .ok (some ((100 - pct) / v)) := by
      rw [etaOf_eq_some hv, if_pos ⟨ne_of_gt hvpos, hvpos⟩]
      unfold ratDivE
      rw [if_neg (ne_of_gt hvpos)]
    exact ⟨_, renderE_eq_ok heta, rfl⟩
  · intro pct now s hneg
    cases hv : s.ema_speed with
    | none => exact ⟨_, renderE_eq_ok (etaOf_eq_none hv), rfl⟩
    | some v =>
      have hc : ¬ (v ≠ 0 ∧ 0 < v) := by
        rintro ⟨h1, h2⟩
        exact absurd (hneg v hv) (not_le.mpr h2)
      have heta : etaOf pct s = .ok none := by
        rw [etaOf_eq_some hv, if_neg hc]
      exact ⟨_, renderE_eq_ok heta, rfl⟩

theorem c6_no_exceptions_witness :
    (∃ s', run_progressE [(1 / 2, 0), (3 / 4, 1)] ProgressState.start = .ok s') ∧
    (∃ line, renderE 50 0 c5_high = .ok line ∧
      line.eta = some ((100 - 50) / 1)) ∧
    (∃ line, renderE 50 0 ProgressState.start = .ok line ∧ line.eta = none) :=
  ⟨c6_no_exceptions.1 [(1 / 2, 0), (3 / 4, 1)],
    c6_no_exceptions.2.1 50 0 c5_high 1 (by decide) (by decide),
    c6_no_exceptions.2.2 50 0 ProgressState.start
      (fun v hv => Option.noConfusion hv)⟩

/-! ## The knowledge store (claim C7)

Embedding of `searchagent/tools/knowledge.py` (`class KnowledgeBase`).  The
backing JSON file is abstracted as `FileContent`: missing, undecodable, or a
decoded JSON object.  `_load` returns the empty mapping for the first two
(the `except json.JSONDecodeError` branch logs and "starts fresh"), so a save
never crashes on a corrupt file.  A decoded JSON object is an insertion-ordered
key/value mapping with unique keys, modelled as an association list with
replace-or-append insertion (`dinsert`), matching Python dict assignment.
-/

abbrev Store := List (String × String)

inductive FileContent where
  | absent
  | invalid
  | valid (data : Store)
deriving DecidableEq, Repr

/-- `KnowledgeBase._load`. -/
def load : FileContent → Store
  | .absent => []
  | .invalid => []
  | .valid d => d

/-- Python dict assignment `data[k] = v`. -/
def dinsert (d : Store) (k v : String) : Store :=
  if d.any (fun p => p.1 == k) then
    d.map (fun p => if p.1 == k then (k, v) else p)
  else d ++ [(k, v)]

/-- Python `str.isdigit` (ASCII digits). -/
def pyIsDigit (s : String) : Bool :=
  s.length > 0 && s.toList.all (fun c => c.isDigit)

/-- Python `int(...)` on a digit string. -/
def strToNat (s : String) : Nat :=
  s.toList.foldl (fun a c => a * 10 + (c.toNat - 48)) 0

/-- The numeric keys of the store, as used by `save_knowledge` lines 88-89:
`nums = [int(k) for k in data.keys() if k.isdigit()]`. -/
def numericIds (data : Store) : List Nat :=
  ((data.map Prod.fst).filter pyIsDigit).map strToNat

/-- `next_num = max(nums, default=0) + 1`. -/
def next_num (data : Store) : Nat :=
  (numericIds data).foldl max 0 + 1

/-- `KnowledgeBase.save_knowledge`: returns the confirmation message and the
new file contents (the whole mapping is rewritten on every save). -/
def save_knowledge (fc : FileContent) (knowledge : String) : String × FileContent :=
  ("Knowledge " ++ toString (next_num (load fc)) ++ " saved successfully.",
    .valid (dinsert (load fc) (toString (next_num (load fc))) knowledge))

theorem foldl_max_le_init (l : List Nat) : ∀ a : Nat, a ≤ l.foldl max a := by
  induction l with
  | nil => intro a; exact le_refl a
  | cons x xs ih =>
    intro a
    exact le_trans (le_max_left a x) (ih (max a x))

theorem mem_le_foldl_max (l : List Nat) :
    ∀ a : Nat, ∀ i ∈ l, i ≤ l.foldl max a := by
  induction l with
  | nil => intro a i hi; cases hi
  | cons x xs ih =>
    intro a i hi
    rcases List.mem_cons.mp hi with rfl | hi'
    · exact le_trans (le_max_right a i) (foldl_max_le_init xs (max a i))
    · exact ih (max a x) i hi'

theorem foldl_max_eq_or_mem (l : List Nat) :
    ∀ a : Nat, l.foldl max a = a ∨ l.foldl max a ∈ l := by
  induction l with
  | nil => intro a; exact Or.inl rfl
  | cons x xs ih =>
    intro a
    rcases ih (max a x) with h | h
    · rw [List.foldl_cons, h]
      rcases max_choice a x with h' | h'
      · exact Or.inl h'
      · right
        rw [h']
        exact List.mem_cons_self x xs
    · exact Or.inr (List.mem_cons_of_mem x h)

/-- C7: `save_knowledge` assigns id `max(existing numeric ids) + 1` (`1` when
there are none): the assigned id strictly exceeds every existing numeric id,
equals `1` on an empty id set, and is the successor of an existing id
otherwise; three saves starting from a missing file yield ids 1, 2, 3 in
insertion order, and a save on an undecodable file does not crash and assigns
the fresh id 1. -/
theorem c7_knowledge_ids :
    (∀ (data : Store) (i : Nat), i ∈ numericIds data → i < next_num data) ∧
    (∀ data : Store, numericIds data = [] → next_num data = 1) ∧
    (∀ data : Store, numericIds data ≠ [] →
      next_num data - 1 ∈ numericIds data) ∧
    (∀ k₁ k₂ k₃ : String,
      save_knowledge .absent k₁ =
        ("Knowledge 1 saved successfully.", .valid [("1", k₁)]) ∧
      save_knowledge (.valid [("1", k₁)]) k₂ =
        ("Knowledge 2 saved successfully.", .valid [("1", k₁), ("2", k₂)]) ∧
      save_knowledge (.valid [("1", k₁), ("2", k₂)]) k₃ =
        ("Knowledge 3 saved successfully.",
          .valid [("1", k₁), ("2", k₂), ("3", k₃)])) ∧
    (∀ k : String, save_knowledge .invalid k =
      ("Knowledge 1 saved successfully.", .valid [("1", k)])) := by
  refine ⟨?_, ?_, ?_, ?_, ?_⟩
  · intro data i hi
    unfold next_num
    have := mem_le_foldl_max (numericIds data) 0 i hi
    omega
  · intro data h
    unfold next_num
    rw [h]
    rfl
  · intro data h
    unfold next_num
    rw [Nat.add_sub_cancel]
    rcases foldl_max_eq_or_mem (numericIds data) 0 with h0 | hm
    · cases hl : numericIds data with
      | nil => exact absurd hl h
      | cons x xs =>
        rw [hl] at h0
        have hx : x ≤ 0 := by
          have hm := mem_le_foldl_max (x :: xs) 0 x (List.mem_cons_self x xs)
          omega
        have hx0 : x = 0 := Nat.le_zero.mp hx
        subst hx0
        rw [h0]
        exact List.mem_cons_self 0 xs
    · exact hm
  · intro k₁ k₂ k₃
    refine ⟨?_, ?_, ?_⟩
    · unfold save_knowledge
      rw [show load FileContent.absent = [] from rfl,
        show next_num [] = 1 from rfl]
      rfl
    · unfold save_knowledge
      rw [show load (FileContent.valid [("1", k₁)]) = [("1", k₁)] from rfl,
        show next_num [("1", k₁)] = 2 from rfl]
      rfl
    · unfold save_knowledge
      rw [show load (FileContent.valid [("1", k₁), ("2", k₂)]) =
          [("1", k₁), ("2", k₂)] from rfl,
        show next_num [("1", k₁), ("2", k₂)] = 3 from rfl]
      rfl
  · intro k
    unfold save_knowledge
    rw [show load FileContent.invalid = [] from rfl,
      show next_num [] = 1 from rfl]
    rfl

theorem c7_knowledge_ids_witness :
    (2 ∈ numericIds [("2", "x")] ∧ 2 < next_num [("2", "x")]) ∧
    (numericIds ([] : Store) = [] ∧ next_num ([] : Store) = 1) ∧
    (numericIds [("2", "x")] ≠ [] ∧
      next_num [("2", "x")] - 1 ∈ numericIds [("2", "x")]) ∧
    save_knowledge .invalid "note" =
      ("Knowledge 1 saved successfully.", .valid [("1", "note")]) :=
  ⟨⟨by decide, c7_knowledge_ids.1 [("2", "x")] 2 (by decide)⟩,
    ⟨by decide, c7_knowledge_ids.2.1 [] (by decide)⟩,
    ⟨by decide, c7_knowledge_ids.2.2.1 [("2", "x")] (by decide)⟩,
    c7_knowledge_ids.2.2.2.2 "note"⟩

/-! ## The report writer (claim C8)

Embedding of `searchagent/tools/reporting.py`.  Strings are `List Char`; the
wall-clock timestamp string and the file-write outcome are parameters (the
`chat`-token block is skipped, as callers pass `chat=None`; an exception
there would in any case fall into the generic `except Exception` branch,
modelled by `WriteOutcome.otherError`).
-/

/-- A character kept by `re.sub(r'[^\w\s-]', '', title)` (ASCII `\w`/`\s`). -/
def keepChar (c : Char) : Bool :=
  c.isAlphanum || c == '_' || pyIsSpace c || c == '-'

/-- `sanitize_filename`: substitute, strip, replace spaces; raises
`ValueError` (the `.error` branch) when nothing survives. -/
def sanitize_filename (title : List Char) : Except (List Char) (List Char) :=
  let sanitized := (pystrip (title.filter keepChar)).map
    (fun c => if c = ' ' then '_' else c)
  if sanitized = [] then
    .error "Report title cannot be empty or contain only special characters".toList
  else .ok sanitized

/-- The markdown body assembled by `create_report` lines 96-98. -/
def report_content (st content : List Char) (sources : List (List Char)) :
    List Char :=
  "# ".toList ++ st ++ "\n\n".toList ++ content ++
    "\n\n## Sources\n".toList ++
    (sources.map (fun src => "- ".toList ++ src ++ "\n".toList)).flatten

inductive WriteOutcome where
  | ok
  | ioError (msg : List Char)
  | otherError (msg : List Char)
deriving DecidableEq, Repr

/-- `create_report`: the returned string, with the timestamp and the outcome
of writing a given body to disk supplied as parameters.  The path is
`reports/<stem>_<timestamp>.md` (`config.paths.reports_dir` default). -/
def create_report (title content : List Char) (sources : List (List Char))
    (timestamp : List Char) (write : List Char → WriteOutcome) : List Char :=
  match sanitize_filename title with
  | .error e => "Error: Invalid report title: ".toList ++ e
  | .ok st =>
    match write (report_content st content sources) with
    | .ok =>
      "DONE, Report saved to ".toList ++
        ("reports/".toList ++ st ++ "_".toList ++ timestamp ++ ".md".toList)
    | .ioError e => "Error: Error writing report to file: ".toList ++ e
    | .otherError e => "Error: Unexpected error creating report: ".toList ++ e

theorem create_report_sanitize_error {title : List Char} {e : List Char}
    (h : sanitize_filename title = .error e)
    (content : List Char) (sources : List (List Char)) (timestamp : List Char)
    (write : List Char → WriteOutcome) :
    create_report title content sources timestamp write =
      "Error: Invalid report title: ".toList ++ e := by
  unfold create_report
  rw [h]

theorem create_report_of_ok {title st : List Char}
    (h : sanitize_filename title = .ok st)
    (content : List Char) (sources : List (List Char)) (timestamp : List Char)
    (write : List Char → WriteOutcome) :
    create_report title content sources timestamp write =
      match write (report_content st content sources) with
      | .ok =>
        "DONE, Report saved to ".toList ++
          ("reports/".toList ++ st ++ "_".toList ++ timestamp ++ ".md".toList)
      | .ioError e => "Error: Error writing report to file: ".toList ++ e
      | .otherError e => "Error: Unexpected error creating report: ".toList ++ e := by
  unfold create_report
  rw [h]

theorem create_report_write_ok {title st : List Char}
    (h : sanitize_filename title = .ok st)
    {content : List Char} {sources : List (List Char)} (timestamp : List Char)
    {write : List Char → WriteOutcome}
    (hw : write (report_content st content sources) = .ok) :
    create_report title content sources timestamp write =
      "DONE, Report saved to ".toList ++
        ("reports/".toList ++ st ++ "_".toList ++ timestamp ++ ".md".toList) := by
  rw [create_report_of_ok h content sources timestamp write, hw]

theorem create_report_write_io {title st : List Char}
    (h : sanitize_filename title = .ok st)
    {content : List Char} {sources : List (List Char)} (timestamp : List Char)
    {write : List Char → WriteOutcome} {e : List Char}
    (hw : write (report_content st content sources) = .ioError e) :
    create_report title content sources timestamp write =
      "Error: Error writing report to file: ".toList ++ e := by
  rw [create_report_of_ok h content sources timestamp write, hw]

theorem create_report_write_other {title st : List Char}
    (h : sanitize_filename title = .ok st)
    {content : List Char} {sources : List (List Char)} (timestamp : List Char)
    {write : List Char → WriteOutcome} {e : List Char}
    (hw : write (report_content st content sources) = .otherError e) :
    create_report title content sources timestamp write =
      "Error: Unexpected error creating report: ".toList ++ e := by
  rw [create_report_of_ok h content sources timestamp write, hw]

/-- C8: `create_report` is total — it never raises to the caller — and every
return value is either `DONE, Report saved to reports/<stem>_<timestamp>.md`
with the stem produced by `sanitize_filename` (in particular `"My Report!"`
sanitizes to stem `My_Report`), or a string beginning `Error: ` when the
title is invalid or the write fails. -/
theorem c8_create_report :
    (∀ (title content : List Char) (sources : List (List Char))
        (ts : List Char) (w : List Char → WriteOutcome),
      (∃ st, sanitize_filename title = .ok st ∧
        w (report_content st content sources) = .ok ∧
        create_report title content sources ts w =
          "DONE, Report saved to ".toList ++
            ("reports/".toList ++ st ++ "_".toList ++ ts ++ ".md".toList)) ∨
      (∃ e, create_report title content sources ts w =
        "Error: ".toList ++ e)) ∧
    sanitize_filename "My Report!".toList = .ok "My_Report".toList ∧
    (∀ (content : List Char) (sources : List (List Char)) (ts : List Char)
        (w : List Char → WriteOutcome),
      create_report "!!!".toList content sources ts w =
        "Error: Invalid report title: Report title cannot be empty or contain only special characters".toList) := by
  refine ⟨?_, rfl, ?_⟩
  · intro title content sources ts w
    cases hsan : sanitize_filename title with
    | error e =>
      right
      refine ⟨"Invalid report title: ".toList ++ e, ?_⟩
      rw [create_report_sanitize_error hsan content sources ts w,
        show ("Error: Invalid report title: ".toList : List Char) =
          "Error: ".toList ++ "Invalid report title: ".toList from by decide,
        List.append_assoc]
    | ok st =>
      cases hw : w (report_content st content sources) with
      | ok =>
        left
        exact ⟨st, rfl, hw, create_report_write_ok hsan ts hw⟩
      | ioError e =>
        right
        refine ⟨"Error writing report to file: ".toList ++ e, ?_⟩
        rw [create_report_write_io hsan ts hw,
          show ("Error: Error writing report to file: ".toList : List Char) =
            "Error: ".toList ++ "Error writing report to file: ".toList
            from by decide,
          List.append_assoc]
      | otherError e =>
        right
        refine ⟨"Unexpected error creating report: ".toList ++ e, ?_⟩
        rw [create_report_write_other hsan ts hw,
          show ("Error: Unexpected error creating report: ".toList : List Char) =
            "Error: ".toList ++ "Unexpected error creating report: ".toList
            from by decide,
          List.append_assoc]
  · intro content sources ts w
    rw [create_report_sanitize_error
      (show sanitize_filename "!!!".toList =
        Except.error
          "Report title cannot be empty or contain only special characters".toList
        from rfl) content sources ts w]
    rfl

/-! ## The crawler entry point (claim C9)

Embedding of `searchagent/tools/crawler.py`.  `urlparse` is modelled by its
scheme/netloc extraction (`urllib.parse.urlsplit`: a scheme is a leading
alphabetic-initial run of letters, digits, `+`, `-`, `.` before a `:`;
the netloc follows `//` up to the next `/`, `?` or `#`).  The network fetch is
a parameter; the boolean in the result records whether the code reached the
`asyncio.run` network attempt.  The post-fetch token-count logging is modelled
as effect-free. -/

def schemeChar (c : Char) : Bool :=
  c.isAlpha || c.isDigit || c == '+' || c == '-' || c == '.'

def urlScheme (url : List Char) : List Char × List Char :=
  let pre := url.takeWhile (fun c => c ≠ ':')
  if pre.length < url.length ∧ 0 < pre.length ∧
      (match pre with | c :: _ => c.isAlpha | [] => false) = true ∧
      pre.all schemeChar = true then
    (pre.map Char.toLower, url.drop (pre.length + 1))
  else ([], url)

def urlNetloc (rest : List Char) : List Char :=
  match rest with
  | '/' :: '/' :: tail => tail.takeWhile (fun c => c ≠ '/' ∧ c ≠ '?' ∧ c ≠ '#')
  | _ => []

/-- `validate_url`: http/https scheme and a non-empty netloc. -/
def validate_url (url : List Char) : Bool :=
  let parts := urlScheme url
  (parts.1 == "http".toList || parts.1 == "https".toList) &&
    !(urlNetloc parts.2).isEmpty

/-- The outcome of `asyncio.run(crawl4ai_async(url))` plus the token-count
logging: success with markdown, a raised `ValueError`, or any other raised
exception. -/
inductive FetchOutcome where
  | success (markdown : List Char)
  | valueError (exn : List Char)
  | failure (exn : List Char)
deriving DecidableEq, Repr

/-- `crawl4ai`: the returned string and whether a network attempt was made. -/
def crawl4ai (url : List Char) (fetch : FetchOutcome) : List Char × Bool :=
  if validate_url url then
    match fetch with
    | .success md => (md, true)
    | .valueError e => ("Error: ".toList ++ e, true)
    | .failure e => ("Error crawling ".toList ++ url ++ ": ".toList ++ e, true)
  else
    ("Error: Invalid URL format: ".toList ++ url ++
      ". URL must start with http:// or https://".toList, false)

/-- C9 (amended): an invalid URL yields a string beginning `Error: ` without
any network attempt; a well-formed https URL such as `https://example.com`
passes validation and proceeds to the network attempt; a raised `ValueError`
yields a string beginning `Error: `, but a generic fetch failure yields an
error string beginning `Error crawling <url>: `, not `Error: `. -/
theorem c9_url_validation_amended :
    (∀ (url : List Char) (fetch : FetchOutcome),
      validate_url url = false →
      crawl4ai url fetch =
        ("Error: Invalid URL format: ".toList ++ url ++
          ". URL must start with http:// or https://".toList, false)) ∧
    (∀ url e : List Char,
      validate_url url = true →
      crawl4ai url (.failure e) =
        ("Error crawling ".toList ++ url ++ ": ".toList ++ e, true)) ∧
    (∀ url e : List Char,
      validate_url url = true →
      crawl4ai url (.valueError e) = ("Error: ".toList ++ e, true)) ∧
    (∀ url md : List Char,
      validate_url url = true →
      crawl4ai url (.success md) = (md, true)) ∧
    validate_url "https://example.com".toList = true ∧
    validate_url "not-a-url".toList = false := by
  refine ⟨?_, ?_, ?_, ?_, by decide, by decide⟩
  · intro url fetch h
    unfold crawl4ai
    rw [h]
    rfl
  · intro url e h
    unfold crawl4ai
    rw [h]
    rfl
  · intro url e h
    unfold crawl4ai
    rw [h]
    rfl
  · intro url md h
    unfold crawl4ai
    rw [h]
    rfl

theorem c9_url_validation_amended_witness :
    validate_url "ftp://example.com".toList = false ∧
    crawl4ai "ftp://example.com".toList (.success "x".toList) =
      ("Error: Invalid URL format: ".toList ++ "ftp://example.com".toList ++
        ". URL must start with http:// or https://".toList, false) ∧
    crawl4ai "https://example.com".toList (.failure "boom".toList) =
      ("Error crawling ".toList ++ "https://example.com".toList ++
        ": ".toList ++ "boom".toList, true) ∧
    crawl4ai "https://example.com".toList (.valueError "bad".toList) =
      ("Error: ".toList ++ "bad".toList, true) ∧
    crawl4ai "https://example.com".toList (.success "md".toList) =
      ("md".toList, true) :=
  ⟨by decide,
    c9_url_validation_amended.1 "ftp://example.com".toList
      (.success "x".toList) (by decide),
    c9_url_validation_amended.2.1 "https://example.com".toList "boom".toList
      (by decide),
    c9_url_validation_amended.2.2.1 "https://example.com".toList "bad".toList
      (by decide),
    c9_url_validation_amended.2.2.2.1 "https://example.com".toList "md".toList
      (by decide)⟩

/-- C9 as stated is false on the fetch-failure half: the returned string
begins `Error crawling …`, not `Error: `. -/
theorem c9_counterexample :
    crawl4ai "https://example.com".toList (.failure "boom".toList) =
      ("Error crawling https://example.com: boom".toList, true) ∧
    ¬ "Error: ".toList <+:
      "Error crawling https://example.com: boom".toList := by
  constructor
  · decide
  · decide

end SearchAgent
